import Mathlib

/-!
Verification of the nanobind instance/type bridge (src/nb_type.cpp together
with src/nb_internals.h) against its natural-language specification.

The embedding below translates the C++ source into Lean definitions:

* Python object identities (`PyObject *`) are natural numbers (`0` models a
  null pointer, `pyNone` models `Py_None`);
* machine addresses are natural numbers, signed deltas are `Int` with an
  explicit 32-bit wrap (`wrap32`) where the source casts to `int32_t`;
* the `tsl::robin_map` instances in `nb_internals` are association lists
  keyed by `Nat` (`mfind`/`mset`/`merase`);
* the pointer-tagged value of `internals.inst_c2p` (direct `PyObject *`
  vs. low-bit-tagged `nb_inst_seq *` linked list, see `nb_is_seq` /
  `nb_mark_seq` in nb_internals.h) is the two-constructor sum `Entry`;
* fatal `check(...)` assertions and C++ `throw` are `Except Fatal`;
* calls into external native code (destructors, copy/move constructors,
  `set_self_py`) mutate no modeled state and are recorded as `Event`s;
  whether a copy/move constructor throws is a `TypeData` field.
-/

namespace Nanobind

/-- Model of the `rv_policy` enumeration as consumed by nb_type.cpp.
`none_` stands for `rv_policy::none`. -/
inductive RvPolicy where
  | take_ownership
  | copy
  | move
  | reference
  | reference_internal
  | none_
deriving DecidableEq

/-- Value stored in `internals.inst_c2p` for one address: either a direct
(untagged) `PyObject *` or the low-bit-tagged linked list `nb_inst_seq *`
of all instances sharing the address (`nb_is_seq`). -/
inductive Entry where
  | direct (i : Nat)
  | seq (l : List Nat)
deriving DecidableEq

/-- The sequence of instances an `inst_c2p` value denotes. -/
def Entry.toList : Entry → List Nat
  | .direct i => [i]
  | .seq l => l

/-- One `nb_weakref_seq` node of a keep-alive list: a patient payload and an
optional release callback (`none` models a null function pointer, in which
case release is `Py_DECREF(payload)`). Callbacks are identified by `Nat`. -/
structure KANode where
  payload : Nat
  callback : Option Nat
deriving DecidableEq

/-- The `nb_inst` header (nb_internals.h lines 39-67).  `self` is the
address of the header itself, `ty` is `Py_TYPE(self)`.  `trailing` models
the extra trailing word `*(void **)(self + 1)` used when the payload offset
is not representable (`direct = false`). -/
structure Inst where
  self : Nat
  ty : Nat
  offset : Int
  direct : Bool
  internal : Bool
  ready : Bool
  destruct : Bool
  cpp_delete : Bool
  clear_keep_alive : Bool
  trailing : Option Nat
deriving DecidableEq

/-- The `type_data` record fields used by nb_type.cpp, with the `flags`
bitfield expanded into Booleans.  `move_raises` / `copy_raises` model
whether the native move/copy constructor throws; `ksfta` models the result
of the external `keep_shared_from_this_alive` callback. -/
structure TypeData where
  cpp : Nat
  type_py : Nat
  name : String
  size : Nat
  align : Nat
  is_destructible : Bool
  has_destruct : Bool
  is_copy_constructible : Bool
  has_copy : Bool
  is_move_constructible : Bool
  has_move : Bool
  has_dynamic_attr : Bool
  intrusive_ptr : Bool
  has_shared_from_this : Bool
  implicit : List Nat
  implicit_py : List (Nat → Bool)
  move_raises : Bool
  copy_raises : Bool
  ksfta : Bool

/-- Read-only host-runtime environment: `tdOfTy` is `nb_type_data` applied
to a Python type object, `isSub` is `PyType_IsSubtype`, `isNbInst` is
`nb_type_check (Py_TYPE o)` for an object `o`, `weakrefable` is whether
`PyWeakref_NewRef` succeeds for an object, `typeName` is the RTTI name
demangler `type_name`, and `construct` models calling a Python type object
on one argument (returning `none` on failure). -/
structure Env where
  tdOfTy : Nat → TypeData
  isSub : Nat → Nat → Bool
  isNbInst : Nat → Bool
  weakrefable : Nat → Bool
  typeName : Nat → String
  construct : Nat → Nat → Option Nat

/-- The mutable bridge state from `nb_internals` (plus the instance headers
and reference counts living in the Python heap).  `weakrefs` records the
weak-reference registrations made by the non-nb-type branch of
`keep_alive`. -/
structure World where
  inst_c2p : List (Nat × Entry)
  type_c2p : List (Nat × TypeData)
  keep_alive : List (Nat × List KANode)
  weakrefs : List (Nat × Nat)
  insts : Nat → Inst
  refcnt : Nat → Nat
  nextId : Nat
  nextAddr : Nat

/-- Association-list lookup (robin_map `find`). -/
def mfind {α : Type} : List (Nat × α) → Nat → Option α
  | [], _ => none
  | (k, v) :: rest, q => if k = q then some v else mfind rest q

/-- Association-list insert-or-assign (robin_map `operator[]` /
`try_emplace` followed by `it.value() =`). -/
def mset {α : Type} : List (Nat × α) → Nat → α → List (Nat × α)
  | [], k, v => [(k, v)]
  | (k0, v0) :: rest, k, v =>
    if k0 = k then (k, v) :: rest else (k0, v0) :: mset rest k v

/-- Association-list erase (robin_map `erase`). -/
def merase {α : Type} : List (Nat × α) → Nat → List (Nat × α)
  | [], _ => []
  | (k0, v0) :: rest, k => if k0 = k then rest else (k0, v0) :: merase rest k

/-- Model of `Py_None` (a distinguished non-null object). -/
def pyNone : Nat := 1

/-- `sizeof(nb_inst) = sizeof(PyObject) + sizeof(void *)` = 24 bytes on a
64-bit platform (static assertion in nb_internals.h line 69). -/
def instHeaderSize : Nat := 24

/-- `__STDCPP_DEFAULT_NEW_ALIGNMENT__` (16 on the mainstream 64-bit ABIs). -/
def defaultNewAlign : Nat := 16

/-- The effect of casting a signed integer to `int32_t`. -/
def wrap32 (x : Int) : Int := (x + 2 ^ 31) % 2 ^ 32 - 2 ^ 31

/-- `(payload + align - 1) / align * align` from inst_new_impl line 79. -/
def alignUp (a align : Nat) : Nat := (a + align - 1) / align * align

/-- `inst_ptr` (nb_internals.h lines 284-287): the payload address is
`self + offset`, dereferenced once more when `direct` is false (the
trailing word stores the absolute payload pointer). -/
def inst_ptr (i : Inst) : Nat :=
  if i.direct then ((i.self : Int) + i.offset).toNat else i.trailing.getD 0

/-- The fatal `check(...)` failures and thrown exceptions of nb_type.cpp
that the modeled fragment can produce. `nextOverload` is the recoverable
`throw next_overload()`; the remaining constructors are fatal. -/
inductive Fatal where
  | duplicateInstance
  | nonDestructible (tyName : String)
  | kaInconsistent (tyName : String)
  | unknownInstance (tyName : String)
  | notCopyConstructible (tyName : String)
  | notMoveOrCopyConstructible (tyName : String)
  | putUniqueOwnership (tyName : String)
  | putUniqueFlags (tyName : String)
  | relinquishCorrupted
  | kaNurseUndefined
  | kaWeakrefFailed
deriving DecidableEq

/-- Observable actions of the modeled code (calls into external native code
or the Python allocator) in the order they are performed. -/
inductive Event where
  | clearDict
  | destructorCall (p : Nat)
  | opDelete (p : Nat) (aligned : Bool)
  | kaRemoveEntry (nurse : Nat)
  | kaCallback (cb : Nat) (payload : Nat)
  | kaDecref (patient : Nat)
  | kaFreeNode
  | c2pErase (p : Nat)
  | freeSelf
  | decrefType
  | moveCtor
  | memcpyMoveZero
  | copyCtor
  | memcpyCopy
  | setSelfPy
deriving DecidableEq

/-- The duplicate-checking walk-and-append over an `nb_inst_seq` list
performed by inst_new_impl lines 134-149: every node is checked against the
new instance (fatal `"duplicate instance!"` on a hit) and the new node is
linked after the last one. -/
def seq_append : List Nat → Nat → Except Fatal (List Nat)
  | [], i => .ok [i]
  | x :: xs, i =>
    if x = i then .error .duplicateInstance
    else (seq_append xs i).map (fun l => x :: l)

/-- The `inst_c2p` update of inst_new_impl lines 117-150: `try_emplace`
stores a direct pointer for a fresh address; on a collision the existing
direct value is first converted to a one-element tagged list, then the
checked append runs. -/
def c2p_register (m : List (Nat × Entry)) (p i : Nat) :
    Except Fatal (List (Nat × Entry)) :=
  match mfind m p with
  | none => .ok (mset m p (.direct i))
  | some e => (seq_append e.toList i).map (fun l => mset m p (.seq l))

/-- Unlinking walk of inst_dealloc lines 228-247: remove the first node
holding `i`, keeping the remainder; `none` when `i` is not in the list. -/
def seq_remove : List Nat → Nat → Option (List Nat)
  | [], _ => none
  | x :: xs, i => if x = i then some xs else (seq_remove xs i).map (fun l => x :: l)

/-- The `inst_c2p` removal of inst_dealloc lines 213-253.  A direct entry
equal to the instance is erased; a tagged list has the instance unlinked,
the map entry being erased when the list empties and rewritten (still
tagged) otherwise.  `none` models `found == false`, which is fatal. -/
def c2p_remove (m : List (Nat × Entry)) (p i : Nat) :
    Option (List (Nat × Entry)) :=
  match mfind m p with
  | none => none
  | some (.direct x) => if x = i then some (merase m p) else none
  | some (.seq l) =>
    match seq_remove l i with
    | none => none
    | some [] => some (merase m p)
    | some l2 => some (mset m p (.seq l2))

/-- All instances the map currently associates with address `p`. -/
def entryListAt (m : List (Nat × Entry)) (p : Nat) : List Nat :=
  match mfind m p with
  | none => []
  | some e => e.toList

/-- The freshly zero-initialized `nb_inst` header built by inst_new_impl
lines 51-115 for a wrapper at address `selfAddr`.  `value = none` is the
co-located case (payload directly after the header at the first address
satisfying the type's alignment); `value = some v` is external storage,
which stores the 32-bit delta when representable and otherwise an absolute
pointer in the extra trailing word. -/
def inst_new_header (selfAddr : Nat) (t : TypeData) (value : Option Nat) : Inst :=
  match value with
  | none =>
    let payload := alignUp (selfAddr + instHeaderSize) t.align
    { self := selfAddr, ty := t.type_py,
      offset := wrap32 ((payload : Int) - (selfAddr : Int)),
      direct := true, internal := true,
      ready := false, destruct := false, cpp_delete := false,
      clear_keep_alive := false, trailing := none }
  | some v =>
    let off := wrap32 ((v : Int) - (selfAddr : Int))
    if (selfAddr : Int) + off = (v : Int) then
      { self := selfAddr, ty := t.type_py, offset := off,
        direct := true, internal := false,
        ready := false, destruct := false, cpp_delete := false,
        clear_keep_alive := false, trailing := none }
    else
      { self := selfAddr, ty := t.type_py, offset := (instHeaderSize : Int),
        direct := false, internal := false,
        ready := false, destruct := false, cpp_delete := false,
        clear_keep_alive := false, trailing := some v }

/-- Replace the instance record stored for object `i`. -/
def World.setInst (w : World) (i : Nat) (x : Inst) : World :=
  { w with insts := fun j => if j = i then x else w.insts j }

/-- Overwrite the reference count of object `i`. -/
def World.setRef (w : World) (i : Nat) (n : Nat) : World :=
  { w with refcnt := fun j => if j = i then n else w.refcnt j }

/-- `Py_INCREF`. -/
def incref (w : World) (i : Nat) : World := w.setRef i (w.refcnt i + 1)

/-- `Py_DECREF` (deallocation on reaching zero is driven by the host
runtime and modeled separately by `inst_dealloc`). -/
def decref (w : World) (i : Nat) : World := w.setRef i (w.refcnt i - 1)

/-- Push a keep-alive node at the head of a nurse's list (the map update
performed by the callback overload of `keep_alive`). -/
def ka_push (w : World) (nurse : Nat) (n : KANode) : World :=
  { w with
    keep_alive := mset w.keep_alive nurse (n :: (mfind w.keep_alive nurse).getD []) }

/-- `inst_new_impl` (nb_type.cpp lines 51-153): allocate a wrapper (fresh
object id at the next free address), build its header, and register the
payload address in `inst_c2p`.  The GC and non-GC branches differ only in
which allocator is invoked, not in the header encoding.  Allocation
failure (`PyErr_NoMemory`) is not modeled. -/
def inst_new_impl (w : World) (t : TypeData) (value : Option Nat) :
    Except Fatal (Nat × World) :=
  let i := w.nextId
  let inst := inst_new_header w.nextAddr t value
  let payload := inst_ptr inst
  (c2p_register w.inst_c2p payload i).map (fun m =>
    (i, { (w.setInst i inst).setRef i 1 with
          inst_c2p := m, nextId := i + 1,
          nextAddr := w.nextAddr + instHeaderSize + t.size + t.align + 8 }))

/-- The duplicate test of keep_alive lines 1041-1048: is there already an
edge to `patient` with no custom callback? -/
def ka_has_plain (l : List KANode) (patient : Nat) : Bool :=
  l.any (fun n => n.payload == patient && n.callback == none)

/-- `keep_alive(PyObject *nurse, PyObject *patient)` (nb_type.cpp lines
1033-1079).  For an nb-type nurse: scan the existing list, return
unchanged when a no-callback edge to the same patient exists, otherwise
append a node at the tail, increment the patient's reference count, and
set `clear_keep_alive`.  For a foreign nurse: register a weak reference
with a decref callback (raising when the nurse is not weak-referenceable)
and increment the patient's reference count. -/
def keep_alive_pyobj (env : Env) (w : World) (nurse patient : Nat) :
    Except Fatal World :=
  if patient = 0 ∨ nurse = 0 ∨ nurse = pyNone ∨ patient = pyNone then .ok w
  else if env.isNbInst nurse then
    let l := (mfind w.keep_alive nurse).getD []
    if ka_has_plain l patient then .ok w
    else
      let w1 := { w with keep_alive := mset w.keep_alive nurse (l ++ [⟨patient, none⟩]) }
      let w2 := incref w1 patient
      .ok (w2.setInst nurse { w2.insts nurse with clear_keep_alive := true })
  else
    if env.weakrefable nurse then
      .ok (incref { w with weakrefs := (nurse, patient) :: w.weakrefs } patient)
    else .error .kaWeakrefFailed

/-- `keep_alive(PyObject *nurse, void *payload, callback)` (nb_type.cpp
lines 1081-1102).  For an nb-type nurse the new node is linked at the
*head* of the list (`s->next = *pp; *pp = s`) with no duplicate check.
For a foreign nurse a fresh capsule object wraps the payload and the
PyObject overload runs on it. -/
def keep_alive_cb (env : Env) (w : World) (nurse payload cb : Nat) :
    Except Fatal World :=
  if nurse = 0 then .error .kaNurseUndefined
  else if env.isNbInst nurse then
    let l := (mfind w.keep_alive nurse).getD []
    let w1 := { w with keep_alive := mset w.keep_alive nurse (⟨payload, some cb⟩ :: l) }
    .ok (w1.setInst nurse { w1.insts nurse with clear_keep_alive := true })
  else
    let cap := w.nextId
    let w1 := ({ w with nextId := cap + 1 } : World).setRef cap 1
    (keep_alive_pyobj env w1 nurse cap).map (fun w2 => decref w2 cap)

/-- Fold `keep_alive_cb` over a list of callbacks (registration order is
the list order). -/
def registerAll (env : Env) (nurse payload : Nat) :
    World → List Nat → Except Fatal World
  | w, [] => .ok w
  | w, c :: cs => (keep_alive_cb env w nurse payload c).bind
      (fun w1 => registerAll env nurse payload w1 cs)

/-- The per-node release actions of inst_dealloc lines 200-210, in list
order: invoke the callback when present, else `Py_DECREF` the patient, and
free the node. -/
def ka_release_events (l : List KANode) : List Event :=
  l.flatMap (fun n =>
    (match n.callback with
     | some cb => [Event.kaCallback cb n.payload]
     | none => [Event.kaDecref n.payload]) ++ [Event.kaFreeNode])

/-- The one release action of a keep-alive node: callback invocation when
present, else `Py_DECREF` of the patient. -/
def releaseEvent (n : KANode) : Event :=
  match n.callback with
  | some cb => Event.kaCallback cb n.payload
  | none => Event.kaDecref n.payload

/-- Is the event a keep-alive callback invocation? -/
def Event.isKaCallback : Event → Bool
  | .kaCallback _ _ => true
  | _ => false

/-- State effect of releasing the keep-alive nodes: each no-callback node
decrements its patient's reference count (callback bodies are external
native code and mutate no modeled state). -/
def ka_release_state (w : World) (l : List KANode) : World :=
  l.foldl (fun acc n =>
    match n.callback with
    | some _ => acc
    | none => decref acc n.payload) w

/-- `inst_dealloc` (nb_type.cpp lines 160-261): (1) clear the dynamic
attribute dictionary when the type has one; (2) when `destruct` is set,
fatal unless the type is destructible, then run the destructor when one
exists; (3) when `cpp_delete` is set, `operator delete` the payload
(aligned variant when the alignment exceeds the default); (4) when
`clear_keep_alive` is set, fatal unless a keep-alive entry exists, then
erase the entry and release every node; (5) remove the instance from
`inst_c2p`, fatal when untracked; (6) free the object and drop the type
reference. -/
def inst_dealloc (env : Env) (w : World) (selfId : Nat) :
    Except Fatal (World × List Event) :=
  let inst := w.insts selfId
  let t := env.tdOfTy inst.ty
  let ev1 : List Event := if t.has_dynamic_attr then [.clearDict] else []
  let p := inst_ptr inst
  if inst.destruct ∧ ¬t.is_destructible then .error (.nonDestructible t.name)
  else
    let ev2 : List Event :=
      if inst.destruct ∧ t.has_destruct then [.destructorCall p] else []
    let ev3 : List Event :=
      if inst.cpp_delete then [.opDelete p (decide (defaultNewAlign < t.align))] else []
    let kaStep : Except Fatal (World × List Event) :=
      if inst.clear_keep_alive then
        match mfind w.keep_alive selfId with
        | none => .error (.kaInconsistent t.name)
        | some l =>
          .ok (ka_release_state { w with keep_alive := merase w.keep_alive selfId } l,
               Event.kaRemoveEntry selfId :: ka_release_events l)
      else .ok (w, [])
    kaStep.bind (fun r =>
      match c2p_remove r.1.inst_c2p p selfId with
      | none => .error (.unknownInstance t.name)
      | some m =>
        .ok ({ r.1 with inst_c2p := m },
             ev1 ++ ev2 ++ ev3 ++ r.2 ++ [.c2pErase p, .freeSelf, .decrefType]))

/-- Result of the identity-map scan loop of nb_type_put lines 1232-1252:
return an existing instance, give up (`nullptr`), or fall through to
creating a new wrapper. -/
inductive PutLoopRes where
  | found (i : Nat)
  | null
  | fallthrough
deriving DecidableEq

/-- The scan loop of nb_type_put lines 1232-1252 over the instances
registered at the target address: an instance whose type data names the
requested C++ type is returned immediately; otherwise the requested type
is looked up (giving up when unregistered — the in-source lazy caching of
this lookup has no observable effect in the model) and an instance whose
Python type is a subtype of the registered one is returned. -/
def put_loop (env : Env) (w : World) (cpp_type : Nat) : List Nat → PutLoopRes
  | [] => .fallthrough
  | i :: rest =>
    let tp := (w.insts i).ty
    if (env.tdOfTy tp).cpp = cpp_type then .found i
    else
      match mfind w.type_c2p cpp_type with
      | none => .null
      | some td =>
        if env.isSub tp td.type_py then .found i
        else put_loop env w cpp_type rest

/-- The `rvp == move` block of nb_type_put_common (lines 1123-1144):
move-construct (or byte-copy-and-zero when the type has no move function),
fall back to policy `copy` when the type is only copy-constructible, and
fail fatally — naming the type — when it is neither.  The first component
is `none` when a throwing move constructor made the code return null. -/
def move_step (t : TypeData) (rvp1 : RvPolicy) :
    Except Fatal (Option RvPolicy × List Event) :=
  if rvp1 = RvPolicy.move then
    if t.is_move_constructible then
      if t.has_move then
        if t.move_raises then .ok (none, [Event.moveCtor])
        else .ok (some RvPolicy.move, [Event.moveCtor])
      else .ok (some RvPolicy.move, [Event.memcpyMoveZero])
    else
      if t.is_copy_constructible then .ok (some RvPolicy.copy, [])
      else .error (.notMoveOrCopyConstructible t.name)
  else .ok (some rvp1, [])

/-- The `rvp == copy` block of nb_type_put_common (lines 1146-1161):
fatal when the type is not copy-constructible, else copy-construct or
byte-copy.  The first component is `none` when a throwing copy
constructor made the code return null. -/
def copy_step (t : TypeData) (rvp2 : RvPolicy) :
    Except Fatal (Option Unit × List Event) :=
  if rvp2 = RvPolicy.copy then
    if ¬t.is_copy_constructible then .error (.notCopyConstructible t.name)
    else if t.has_copy then
      if t.copy_raises then .ok (none, [Event.copyCtor])
      else .ok (some (), [Event.copyCtor])
    else .ok (some (), [Event.memcpyCopy])
  else .ok (some (), [])

/-- The tail of nb_type_put_common (lines 1163-1185): the
`shared_from_this` handover (forcing `reference` and leaving `is_new`
unset), the `destruct`/`cpp_delete` flag assignment from the final policy,
marking the instance ready, the `reference_internal` keep-alive edge, and
the intrusive self-pointer publication. -/
def finalize_step (env : Env) (t : TypeData) (rvp1 rvp2 : RvPolicy)
    (cleanup_self : Option Nat) (i : Nat) (w1 : World) (ev : List Event) :
    Except Fatal (Option Nat × Bool × World × List Event) :=
  let store_in_obj := rvp1 = RvPolicy.copy ∨ rvp1 = RvPolicy.move
  let sft := t.has_shared_from_this ∧ ¬store_in_obj ∧ t.ksfta
  let rvp3 := if sft then RvPolicy.reference else rvp2
  let is_new := decide (¬sft)
  let inst2 :=
    { w1.insts i with
      destruct :=
        decide (rvp3 ≠ RvPolicy.reference ∧ rvp3 ≠ RvPolicy.reference_internal),
      cpp_delete := decide (rvp3 = RvPolicy.take_ownership),
      ready := true }
  let w2 := w1.setInst i inst2
  let kaStep : Except Fatal World :=
    if rvp3 = RvPolicy.reference_internal then
      match cleanup_self with
      | some s => keep_alive_pyobj env w2 i s
      | none => .ok w2
    else .ok w2
  kaStep.map (fun w3 =>
    (some i, is_new, w3, ev ++ (if t.intrusive_ptr then [Event.setSelfPy] else [])))

/-- `nb_type_put_common` (nb_type.cpp lines 1104-1186): give up when
`reference_internal` lacks a self object; force `take_ownership` for
intrusive types; allocate the wrapper (co-located storage for copy/move);
run the move block, the copy block and the finalization tail in order.  A
throwing copy/move constructor yields `none` (the fresh wrapper is
released to the host runtime by `Py_DECREF`). -/
def nb_type_put_common (env : Env) (w : World) (value : Nat) (t : TypeData)
    (rvp : RvPolicy) (cleanup_self : Option Nat) :
    Except Fatal (Option Nat × Bool × World × List Event) :=
  if rvp = .reference_internal ∧ cleanup_self = none then .ok (none, false, w, [])
  else
    let rvp1 := if t.intrusive_ptr then RvPolicy.take_ownership else rvp
    let store_in_obj := rvp1 = RvPolicy.copy ∨ rvp1 = RvPolicy.move
    (inst_new_impl w t (if store_in_obj then none else some value)).bind (fun a =>
      (move_step t rvp1).bind (fun mres =>
        match mres with
        | (none, evm) => .ok (none, false, a.2, evm)
        | (some rvp2, evm) =>
          (copy_step t rvp2).bind (fun cres =>
            match cres with
            | (none, evc) => .ok (none, false, a.2, evm ++ evc)
            | (some _, evc) =>
              finalize_step env t rvp1 rvp2 cleanup_self a.1 a.2 (evm ++ evc))))

/-- `nb_type_put` (nb_type.cpp lines 1188-1263): null maps to `Py_None`;
for every policy except `copy` the identity map is consulted first and a
matching registered instance is returned with its reference count
incremented; with no entry at the address, policy `none` gives up; all
remaining cases look up the type and build a new wrapper. -/
def nb_type_put (env : Env) (w : World) (cpp_type value : Nat) (rvp : RvPolicy)
    (cleanup_self : Option Nat) :
    Except Fatal (Option Nat × Bool × World × List Event) :=
  if value = 0 then .ok (some pyNone, false, incref w pyNone, [])
  else
    let afterLookup : Except Fatal (Option Nat × Bool × World × List Event) :=
      match mfind w.type_c2p cpp_type with
      | none => .ok (none, false, w, [])
      | some td => nb_type_put_common env w value td rvp cleanup_self
    if rvp ≠ RvPolicy.copy then
      match mfind w.inst_c2p value with
      | some e =>
        match put_loop env w cpp_type e.toList with
        | .found i => .ok (some i, false, incref w i, [])
        | .null => .ok (none, false, w, [])
        | .fallthrough => afterLookup
      | none =>
        if rvp = RvPolicy.none_ then .ok (none, false, w, [])
        else afterLookup
    else afterLookup

/-- `nb_type_put_unique_finalize` (nb_type.cpp lines 1357-1384): fatal when
ownership was to stay native (`cpp_delete` false) yet a new wrapper was
built; with `cpp_delete` the flag triple (`ready`,`destruct`,`cpp_delete`)
must equal `is_new` exactly and is then forced all-true; without, the
wrapper must be not ready and is re-marked ready. -/
def nb_type_put_unique_finalize (env : Env) (w : World) (o : Nat)
    (cpp_type : Nat) (cpp_delete is_new : Bool) : Except Fatal World :=
  if ¬cpp_delete ∧ is_new then .error (.putUniqueOwnership (env.typeName cpp_type))
  else
    let inst := w.insts o
    if cpp_delete then
      if inst.ready = is_new ∧ inst.destruct = is_new ∧ inst.cpp_delete = is_new then
        .ok (w.setInst o { inst with ready := true, destruct := true, cpp_delete := true })
      else .error (.putUniqueFlags (env.typeName cpp_type))
    else
      if inst.ready then .error (.putUniqueOwnership (env.typeName cpp_type))
      else .ok (w.setInst o { inst with ready := true })

/-- `nb_type_put_unique` (nb_type.cpp lines 1386-1398): `take_ownership`
when the unique holder owns deletion, else policy `none`, followed by the
flag finalization on a non-null result. -/
def nb_type_put_unique (env : Env) (w : World) (cpp_type value : Nat)
    (cleanup_self : Option Nat) (cpp_delete : Bool) :
    Except Fatal (Option Nat × World) :=
  let policy := if cpp_delete then RvPolicy.take_ownership else RvPolicy.none_
  (nb_type_put env w cpp_type value policy cleanup_self).bind (fun r =>
    match r with
    | (none, _, w1, _) => .ok (none, w1)
    | (some o, is_new, w1, _) =>
      (nb_type_put_unique_finalize env w1 o cpp_type cpp_delete is_new).map
        (fun w2 => (some o, w2)))

/-- `nb_type_relinquish_ownership` (nb_type.cpp lines 1416-1447): fatal
when the instance is not ready; with `cpp_delete`, a wrapper lacking
`cpp_delete` or `destruct` or holding co-located storage yields the
recoverable `throw next_overload()` (modeled `.ok none`), otherwise both
ownership flags are cleared; in every success case the instance is marked
not ready. -/
def nb_type_relinquish_ownership (w : World) (o : Nat) (cpp_delete : Bool) :
    Except Fatal (Option World) :=
  let inst := w.insts o
  if ¬inst.ready then .error .relinquishCorrupted
  else if cpp_delete then
    if ¬inst.cpp_delete ∨ ¬inst.destruct ∨ inst.internal then .ok none
    else .ok (some (w.setInst o
      { inst with cpp_delete := false, destruct := false, ready := false }))
  else .ok (some (w.setInst o { inst with ready := false }))

/-- Which conversion candidate `nb_type_get_implicit` selects. -/
inductive ImpCand where
  | nativeExact (ty : Nat)
  | nativeSub (ty : Nat)
  | pred (idx : Nat)
deriving DecidableEq

/-- First pass of nb_type_get_implicit lines 869-875: scan the declared
native source types for one equal to the value's own type. -/
def implicit_exact (s : Nat) : List Nat → Option Nat
  | [] => none
  | v :: rest => if v = s then some v else implicit_exact s rest

/-- Second pass of nb_type_get_implicit lines 877-883: scan the declared
native source types for one whose registered Python type is a supertype of
the source object's Python type. -/
def implicit_sub (env : Env) (tmap : List (Nat × TypeData)) (srcTy : Nat) :
    List Nat → Option Nat
  | [] => none
  | v :: rest =>
    match mfind tmap v with
    | some td2 =>
      if env.isSub srcTy td2.type_py then some v
      else implicit_sub env tmap srcTy rest
    | none => implicit_sub env tmap srcTy rest

/-- Third pass of nb_type_get_implicit lines 886-895: try the predicate
conversions in declaration order, returning the index of the first that
accepts the source object. -/
def implicit_pred (src : Nat) : List (Nat → Bool) → Option Nat
  | [] => none
  | f :: rest => if f src then some 0 else (implicit_pred src rest).map (· + 1)

/-- The candidate-selection part of `nb_type_get_implicit` (nb_type.cpp
lines 863-897): native-type passes run only when the source carries a
known C++ type (the surrounding `if (dst_type->implicit && cpp_type_src)`),
the predicate pass runs afterwards. -/
def nb_type_get_implicit_select (env : Env) (w : World) (src : Nat)
    (cpp_type_src : Option Nat) (dst : TypeData) : Option ImpCand :=
  let natPart : Option ImpCand :=
    match cpp_type_src with
    | some s =>
      match implicit_exact s dst.implicit with
      | some v => some (.nativeExact v)
      | none =>
        match implicit_sub env w.type_c2p (w.insts src).ty dst.implicit with
        | some v => some (.nativeSub v)
        | none => none
    | none => none
  match natPart with
  | some c => some c
  | none => (implicit_pred src dst.implicit_py).map .pred

/-- `nb_type_get_implicit` (nb_type.cpp lines 863-947): when some candidate
matches, the destination type object is called on the source value (the
same construction for every candidate); construction failure is swallowed
(`none`, optionally after a diagnostic). -/
def nb_type_get_implicit (env : Env) (w : World) (src : Nat)
    (cpp_type_src : Option Nat) (dst : TypeData) : Option Nat :=
  match nb_type_get_implicit_select env w src cpp_type_src dst with
  | some _ => env.construct dst.type_py src
  | none => none

/-- Does a declared native source type match through the registered-host
subtype relation? (the per-entry test of the second pass). -/
def bmatch (env : Env) (tmap : List (Nat × TypeData)) (srcTy v : Nat) : Bool :=
  match mfind tmap v with
  | some td2 => env.isSub srcTy td2.type_py
  | none => false

/-- Spec-side candidate ordering for the conversion resolver, written from
the specification's words: all exact native-type matches, then all
subtype-based native-type matches, then all accepting predicates, each
group in declaration order; the resolver must select the head of this
list. -/
def conv_candidates (env : Env) (w : World) (src : Nat)
    (cpp_type_src : Option Nat) (dst : TypeData) : List ImpCand :=
  (match cpp_type_src with
   | some s =>
     (dst.implicit.filter (fun v => v == s)).map ImpCand.nativeExact ++
     (dst.implicit.filter (bmatch env w.type_c2p (w.insts src).ty)).map
       ImpCand.nativeSub
   | none => []) ++
  (((List.enumFrom 0 dst.implicit_py).filter (fun kf => kf.2 src)).map
    (fun kf => ImpCand.pred kf.1))

/-- Spec-side effective return-value policy, written from the
specification's resolution algorithm: intrusive types force
`take_ownership`; `move` on a type that is not move-constructible becomes
`copy`; a type cooperating with `shared_from_this` whose value is not
stored inside the wrapper becomes `reference`. -/
def effective_policy (t : TypeData) (rvp : RvPolicy) : RvPolicy :=
  let r1 := if t.intrusive_ptr then RvPolicy.take_ownership else rvp
  let r2 := if r1 = RvPolicy.move ∧ ¬t.is_move_constructible then RvPolicy.copy else r1
  let store_in_obj := r1 = RvPolicy.copy ∨ r1 = RvPolicy.move
  if t.has_shared_from_this ∧ ¬store_in_obj ∧ t.ksfta then RvPolicy.reference else r2

/-! ### Concrete data used by the witnesses -/

/-- A representative bound type: destructible, copyable, movable, 8-byte
payload, no intrusive or shared-from-this cooperation. -/
def tdW : TypeData :=
  { cpp := 42, type_py := 7, name := "MyType", size := 8, align := 8,
    is_destructible := true, has_destruct := true,
    is_copy_constructible := true, has_copy := true,
    is_move_constructible := true, has_move := true,
    has_dynamic_attr := false, intrusive_ptr := false,
    has_shared_from_this := false,
    implicit := [], implicit_py := [],
    move_raises := false, copy_raises := false, ksfta := false }

/-- A quiescent instance header of type `tdW`. -/
def instW : Inst :=
  { self := 1000, ty := 7, offset := 0, direct := true, internal := false,
    ready := false, destruct := false, cpp_delete := false,
    clear_keep_alive := false, trailing := none }

/-- Environment for the witnesses: every type object carries `tdW`,
subtyping is equality, every object is an nb instance. -/
def envW : Env :=
  { tdOfTy := fun _ => tdW, isSub := fun a b => a == b,
    isNbInst := fun _ => true, weakrefable := fun _ => true,
    typeName := fun _ => "MyType", construct := fun _ s => some (s + 10000) }

/-- A world with `tdW` registered and no live instances. -/
def wEmpty : World :=
  { inst_c2p := [], type_c2p := [(42, tdW)], keep_alive := [],
    weakrefs := [], insts := fun _ => instW, refcnt := fun _ => 1,
    nextId := 50, nextAddr := 5000 }

/-- A type with a trivial move path (bitwise move, no move function). -/
def tdMemMove : TypeData := { tdW with has_move := false }

/-- A type that is only copy-constructible (move falls back to copy). -/
def tdCopyFall : TypeData := { tdW with is_move_constructible := false, has_move := false }

/-- A copy-only type with a trivial copy (bitwise). -/
def tdMemCopy : TypeData :=
  { tdW with is_move_constructible := false, has_move := false, has_copy := false }

/-- A type that is neither move- nor copy-constructible. -/
def tdNoCtor : TypeData :=
  { tdW with is_move_constructible := false, has_move := false,
             is_copy_constructible := false, has_copy := false }

/-- A destination type declaring one native implicit conversion (from the
type with identity 42) and one always-accepting predicate conversion. -/
def tdImp : TypeData :=
  { tdW with implicit := [42], implicit_py := [fun _ => true] }

/-- An instance owning its payload (`destruct`, `cpp_delete`) that is not
ready — the state reached after a successful ownership relinquish. -/
def instNotReady : Inst := { instW with destruct := true, cpp_delete := true }

/-- World whose every instance slot holds `instNotReady`. -/
def wNotReady : World := { wEmpty with insts := fun _ => instNotReady }

/-- A live wrapper owning destructor and deletion with one keep-alive
edge. -/
def instDel : Inst :=
  { instW with
    ready := true, destruct := true, cpp_delete := true,
    clear_keep_alive := true }

/-- World holding wrapper `3` (payload at 1000) with one plain keep-alive
edge to patient `4`. -/
def wDel : World :=
  { wEmpty with
    insts := fun _ => instDel,
    inst_c2p := [(1000, .direct 3)],
    keep_alive := [(3, [⟨4, none⟩])] }

/-- World holding a plain wrapper `3` (payload at 1000) with no keep-alive
edges yet. -/
def wCb : World := { wEmpty with inst_c2p := [(1000, .direct 3)] }

/-! ### Helper lemmas: association lists, 32-bit wrap, alignment -/

theorem mfind_mset_self {α : Type} (m : List (Nat × α)) (k : Nat) (v : α) :
    mfind (mset m k v) k = some v := by
  induction m with
  | nil => simp [mset, mfind]
  | cons h t ih =>
    obtain ⟨k0, v0⟩ := h
    by_cases hk : k0 = k
    · subst hk; simp [mset, mfind]
    · simp [mset, mfind, hk, ih]

theorem mfind_mset_ne {α : Type} (m : List (Nat × α)) (k q : Nat) (v : α)
    (h : k ≠ q) : mfind (mset m k v) q = mfind m q := by
  induction m with
  | nil => simp [mset, mfind, h]
  | cons hd t ih =>
    obtain ⟨k0, v0⟩ := hd
    by_cases hk : k0 = k
    · subst hk; simp [mset, mfind, h]
    · simp only [mset, if_neg hk, mfind]
      by_cases hq : k0 = q
      · simp [hq]
      · simp [hq, ih]

theorem wrap32_eq_self {x : Int} (h1 : -(2 ^ 31) ≤ x) (h2 : x < 2 ^ 31) :
    wrap32 x = x := by
  unfold wrap32
  have h3 : (0 : Int) ≤ x + 2 ^ 31 := by omega
  have h4 : x + 2 ^ 31 < 2 ^ 32 := by omega
  rw [Int.emod_eq_of_lt h3 h4]
  ring

theorem wrap32_ne_self {x : Int} (h : x < -(2 ^ 31) ∨ 2 ^ 31 ≤ x) :
    wrap32 x ≠ x := by
  unfold wrap32
  have h1 := Int.emod_nonneg (x + 2 ^ 31) (by norm_num : (2 : Int) ^ 32 ≠ 0)
  have h2 := Int.emod_lt_of_pos (x + 2 ^ 31) (by norm_num : (0 : Int) < 2 ^ 32)
  omega

theorem alignUp_bounds (a : Nat) {al : Nat} (h : 0 < al) :
    a ≤ alignUp a al ∧ alignUp a al < a + al := by
  have h1 := Nat.mod_add_div (a + al - 1) al
  have h2 := Nat.mod_lt (a + al - 1) h
  have h3 : alignUp a al = al * ((a + al - 1) / al) := Nat.mul_comm _ _
  omega

theorem alignUp_dvd (a al : Nat) : al ∣ alignUp a al :=
  ⟨(a + al - 1) / al, Nat.mul_comm _ _⟩

/-- `inst_ptr` recovers the caller-supplied payload address in both the
direct-offset and the trailing-pointer encoding. -/
theorem inst_ptr_ext (selfAddr : Nat) (t : TypeData) (v : Nat) :
    inst_ptr (inst_new_header selfAddr t (some v)) = v := by
  simp only [inst_new_header]
  split
  · next h => simp only [inst_ptr, if_pos rfl]; rw [h]; simp
  · simp [inst_ptr]

theorem inst_new_header_ext_fits (selfAddr : Nat) (t : TypeData) (v : Nat)
    (h1 : -(2 ^ 31) ≤ (v : Int) - (selfAddr : Int))
    (h2 : (v : Int) - (selfAddr : Int) < 2 ^ 31) :
    (inst_new_header selfAddr t (some v)).direct = true ∧
    (inst_new_header selfAddr t (some v)).offset = (v : Int) - (selfAddr : Int) ∧
    (inst_new_header selfAddr t (some v)).trailing = none := by
  have hw := wrap32_eq_self h1 h2
  simp only [inst_new_header]
  rw [if_pos (by rw [hw]; ring)]
  exact ⟨rfl, hw, rfl⟩

theorem inst_new_header_ext_nofits (selfAddr : Nat) (t : TypeData) (v : Nat)
    (h : (v : Int) - (selfAddr : Int) < -(2 ^ 31) ∨
         (2 ^ 31 : Int) ≤ (v : Int) - (selfAddr : Int)) :
    (inst_new_header selfAddr t (some v)).direct = false ∧
    (inst_new_header selfAddr t (some v)).trailing = some v := by
  have hw := wrap32_ne_self h
  simp only [inst_new_header]
  rw [if_neg (by intro hc; exact hw (by omega))]
  exact ⟨rfl, rfl⟩

theorem inst_new_header_colocated (selfAddr : Nat) (t : TypeData)
    (hal : 0 < t.align)
    (hb : (t.align : Int) < 2 ^ 31 - (instHeaderSize : Int)) :
    (inst_new_header selfAddr t none).internal = true ∧
    (inst_new_header selfAddr t none).direct = true ∧
    inst_ptr (inst_new_header selfAddr t none) =
      alignUp (selfAddr + instHeaderSize) t.align := by
  obtain ⟨hlo, hhi⟩ := alignUp_bounds (selfAddr + instHeaderSize) hal
  have hI : instHeaderSize = 24 := rfl
  have hw : wrap32 ((alignUp (selfAddr + instHeaderSize) t.align : Int) -
      (selfAddr : Int)) =
      (alignUp (selfAddr + instHeaderSize) t.align : Int) - (selfAddr : Int) := by
    apply wrap32_eq_self <;> omega
  refine ⟨rfl, rfl, ?_⟩
  simp only [inst_new_header, inst_ptr, ite_true, if_pos rfl]
  rw [hw]
  omega

theorem inst_new_header_ext_internal (selfAddr : Nat) (t : TypeData) (v : Nat) :
    (inst_new_header selfAddr t (some v)).internal = false := by
  simp only [inst_new_header]
  split <;> rfl

/-- C10: for a wrapper built by `inst_new_impl` over a caller-supplied
payload address, the 32-bit-representable delta is stored directly with
the `direct` flag set, an unrepresentable delta stores the absolute
pointer in the trailing word with `direct` clear, and in both encodings
`inst_ptr` returns exactly the creation address; in the co-located case
the wrapper is `internal`, `direct`, and its payload address is aligned to
the type's alignment. -/
theorem inst_payload_address_roundtrip (selfAddr : Nat) (t : TypeData) (v : Nat)
    (hal : 0 < t.align)
    (hb : (t.align : Int) < 2 ^ 31 - (instHeaderSize : Int)) :
    ((-(2 ^ 31) ≤ (v : Int) - (selfAddr : Int) ∧
        (v : Int) - (selfAddr : Int) < 2 ^ 31) →
       (inst_new_header selfAddr t (some v)).direct = true ∧
       (inst_new_header selfAddr t (some v)).offset =
         (v : Int) - (selfAddr : Int) ∧
       (inst_new_header selfAddr t (some v)).trailing = none) ∧
    (((v : Int) - (selfAddr : Int) < -(2 ^ 31) ∨
        (2 ^ 31 : Int) ≤ (v : Int) - (selfAddr : Int)) →
       (inst_new_header selfAddr t (some v)).direct = false ∧
       (inst_new_header selfAddr t (some v)).trailing = some v) ∧
    inst_ptr (inst_new_header selfAddr t (some v)) = v ∧
    (inst_new_header selfAddr t none).internal = true ∧
    (inst_new_header selfAddr t none).direct = true ∧
    t.align ∣ inst_ptr (inst_new_header selfAddr t none) := by
  obtain ⟨hi, hd, hp⟩ := inst_new_header_colocated selfAddr t hal hb
  exact ⟨fun h => inst_new_header_ext_fits selfAddr t v h.1 h.2,
         fun h => inst_new_header_ext_nofits selfAddr t v h,
         inst_ptr_ext selfAddr t v, hi, hd, hp ▸ alignUp_dvd _ _⟩

theorem inst_payload_address_roundtrip_witness :
    0 < tdW.align ∧ (tdW.align : Int) < 2 ^ 31 - (instHeaderSize : Int) ∧
    inst_ptr (inst_new_header 1000 tdW (some 500)) = 500 ∧
    tdW.align ∣ inst_ptr (inst_new_header 1000 tdW none) := by
  have h := inst_payload_address_roundtrip 1000 tdW 500 (by decide)
    (by norm_num [tdW, instHeaderSize])
  exact ⟨by decide, by norm_num [tdW, instHeaderSize], h.2.2.1, h.2.2.2.2.2⟩

/-- Computation of `nb_type_put_common` for a fresh external value under
`take_ownership` for a plain (non-intrusive, no shared-from-this) type. -/
theorem put_common_fresh (env : Env) (w : World) (value : Nat) (td : TypeData)
    (cs : Option Nat)
    (hintr : td.intrusive_ptr = false)
    (hsft : td.has_shared_from_this = false)
    (hmap : mfind w.inst_c2p value = none) :
    ∃ w2, nb_type_put_common env w value td .take_ownership cs =
        .ok (some w.nextId, true, w2, []) ∧
      w2.insts w.nextId =
        { inst_new_header w.nextAddr td (some value) with
          destruct := true, cpp_delete := true, ready := true } ∧
      w2.inst_c2p = mset w.inst_c2p value (.direct w.nextId) ∧
      w2.type_c2p = w.type_c2p ∧
      w2.nextId = w.nextId + 1 := by
  have hreg : c2p_register w.inst_c2p
      (inst_ptr (inst_new_header w.nextAddr td (some value))) w.nextId =
      .ok (mset w.inst_c2p value (.direct w.nextId)) := by
    rw [inst_ptr_ext]
    simp [c2p_register, hmap]
  simp [nb_type_put_common, move_step, copy_step, finalize_step, hintr, hsft,
    inst_new_impl, hreg, Except.map, Except.bind]
  simp [World.setInst, World.setRef]

/-- Computation of `nb_type_put` for a fresh external value under
`take_ownership` for a plain registered type. -/
theorem put_fresh_take (env : Env) (w : World) (cpp_type value : Nat)
    (cs : Option Nat) (td : TypeData)
    (hty : mfind w.type_c2p cpp_type = some td)
    (hintr : td.intrusive_ptr = false)
    (hsft : td.has_shared_from_this = false)
    (hv : value ≠ 0)
    (hmap : mfind w.inst_c2p value = none) :
    ∃ w2, nb_type_put env w cpp_type value .take_ownership cs =
        .ok (some w.nextId, true, w2, []) ∧
      w2.insts w.nextId =
        { inst_new_header w.nextAddr td (some value) with
          destruct := true, cpp_delete := true, ready := true } ∧
      w2.inst_c2p = mset w.inst_c2p value (.direct w.nextId) ∧
      w2.type_c2p = w.type_c2p ∧
      w2.nextId = w.nextId + 1 := by
  obtain ⟨w2, h1, h2, h3, h4, h5⟩ := put_common_fresh env w value td cs hintr hsft hmap
  refine ⟨w2, ?_, h2, h3, h4, h5⟩
  simp [nb_type_put, hv, hmap, hty, h1]

/-- Computation of `nb_type_put_unique` with `cpp_delete = true` for a
fresh external value: the new wrapper ends up ready with both ownership
flags set and external (non-co-located) storage. -/
theorem put_unique_fresh (env : Env) (w : World) (cpp_type value : Nat)
    (cs : Option Nat) (td : TypeData)
    (hty : mfind w.type_c2p cpp_type = some td)
    (hintr : td.intrusive_ptr = false)
    (hsft : td.has_shared_from_this = false)
    (hv : value ≠ 0)
    (hmap : mfind w.inst_c2p value = none) :
    ∃ w2, nb_type_put_unique env w cpp_type value cs true = .ok (some w.nextId, w2) ∧
      (w2.insts w.nextId).ready = true ∧
      (w2.insts w.nextId).destruct = true ∧
      (w2.insts w.nextId).cpp_delete = true ∧
      (w2.insts w.nextId).internal = false := by
  obtain ⟨w2, h1, h2, h3, h4, h5⟩ :=
    put_fresh_take env w cpp_type value cs td hty hintr hsft hv hmap
  have hint : (w2.insts w.nextId).internal = false := by
    rw [h2]; exact inst_new_header_ext_internal _ _ _
  simp [nb_type_put_unique, h1, nb_type_put_unique_finalize, h2, World.setInst, hint,
    Except.bind, Except.map, inst_new_header_ext_internal]

/-- C3 (amended): `nb_type_relinquish_ownership` with `cpp_delete = true`
succeeds exactly when the wrapper has `ready`, `destruct` and `cpp_delete`
set and is not co-located, clearing `destruct`/`cpp_delete` and marking
the wrapper not ready; when the wrapper is ready but the ownership test
fails it fails recoverably (`next_overload`, modeled `.ok none`); a
wrapper that is not ready fails fatally (corrupted-ownership check).  A
`put_unique(T, v, cpp_delete = true)` on a fresh value followed
immediately by `relinquish_ownership` succeeds and leaves the wrapper not
ready, and a second `relinquish_ownership` fails (fatally) rather than
releasing ownership twice. -/
theorem relinquish_ownership_reclaim :
    (∀ (w : World) (o : Nat),
       (w.insts o).ready = true → (w.insts o).destruct = true →
       (w.insts o).cpp_delete = true → (w.insts o).internal = false →
       nb_type_relinquish_ownership w o true =
         .ok (some (w.setInst o
           { w.insts o with cpp_delete := false, destruct := false, ready := false }))) ∧
    (∀ (w : World) (o : Nat),
       (w.insts o).ready = true →
       ((w.insts o).cpp_delete = false ∨ (w.insts o).destruct = false ∨
        (w.insts o).internal = true) →
       nb_type_relinquish_ownership w o true = .ok none) ∧
    (∀ (w : World) (o : Nat),
       (w.insts o).ready = false →
       nb_type_relinquish_ownership w o true = .error .relinquishCorrupted) ∧
    (∀ (env : Env) (w : World) (cpp_type value : Nat) (cs : Option Nat) (td : TypeData),
       mfind w.type_c2p cpp_type = some td →
       td.intrusive_ptr = false → td.has_shared_from_this = false →
       value ≠ 0 → mfind w.inst_c2p value = none →
       ∃ w1 w2,
         nb_type_put_unique env w cpp_type value cs true = .ok (some w.nextId, w1) ∧
         nb_type_relinquish_ownership w1 w.nextId true = .ok (some w2) ∧
         (w2.insts w.nextId).ready = false ∧
         nb_type_relinquish_ownership w2 w.nextId true = .error .relinquishCorrupted) := by
  refine ⟨?_, ?_, ?_, ?_⟩
  · intro w o h1 h2 h3 h4
    simp [nb_type_relinquish_ownership, h1, h2, h3, h4]
  · intro w o h1 h2
    rcases h2 with h | h | h <;> simp [nb_type_relinquish_ownership, h1, h]
  · intro w o h1
    simp [nb_type_relinquish_ownership, h1]
  · intro env w cpp_type value cs td hty hintr hsft hv hmap
    obtain ⟨w1, hput, hrdy, hdes, hdel, hint⟩ :=
      put_unique_fresh env w cpp_type value cs td hty hintr hsft hv hmap
    refine ⟨w1, w1.setInst w.nextId
      { w1.insts w.nextId with
        cpp_delete := false, destruct := false, ready := false },
      hput, ?_, ?_, ?_⟩
    · simp [nb_type_relinquish_ownership, hrdy, hdes, hdel, hint]
    · simp [World.setInst]
    · simp [nb_type_relinquish_ownership, World.setInst]

/-- C3 counterexample: a ready-flag-clear wrapper that still carries both
ownership flags; the claim predicts a recoverable failure but the code
fails fatally on the corrupted-ownership check. -/
theorem relinquish_not_ready_counterexample :
    (wNotReady.insts 3).ready = false ∧
    (wNotReady.insts 3).destruct = true ∧
    (wNotReady.insts 3).cpp_delete = true ∧
    (wNotReady.insts 3).internal = false ∧
    nb_type_relinquish_ownership wNotReady 3 true = .error .relinquishCorrupted ∧
    nb_type_relinquish_ownership wNotReady 3 true ≠ .ok none := by
  refine ⟨rfl, rfl, rfl, rfl, rfl, ?_⟩
  intro h
  simp [nb_type_relinquish_ownership, wNotReady, instNotReady, instW, wEmpty] at h

theorem relinquish_ownership_reclaim_witness :
    mfind wEmpty.type_c2p 42 = some tdW ∧
    tdW.intrusive_ptr = false ∧ tdW.has_shared_from_this = false ∧
    (500 : Nat) ≠ 0 ∧ mfind wEmpty.inst_c2p 500 = none ∧
    (∃ w1 w2,
       nb_type_put_unique envW wEmpty 42 500 none true = .ok (some wEmpty.nextId, w1) ∧
       nb_type_relinquish_ownership w1 wEmpty.nextId true = .ok (some w2) ∧
       (w2.insts wEmpty.nextId).ready = false ∧
       nb_type_relinquish_ownership w2 wEmpty.nextId true =
         .error .relinquishCorrupted) := by
  refine ⟨rfl, rfl, rfl, by decide, rfl, ?_⟩
  exact relinquish_ownership_reclaim.2.2.2 envW wEmpty 42 500 none tdW rfl rfl rfl
    (by decide) rfl

/-- C6: for a bridged (nb-type) nurse, a second no-callback
`keep_alive(nurse, patient)` call with the same pair is a no-op: the world
— keep-alive list, patient reference count, instance flags — is returned
unchanged. -/
theorem keep_alive_idempotent (env : Env) (w w1 : World) (nurse patient : Nat)
    (hnb : env.isNbInst nurse = true)
    (h1 : keep_alive_pyobj env w nurse patient = .ok w1) :
    keep_alive_pyobj env w1 nurse patient = .ok w1 := by
  by_cases hg : patient = 0 ∨ nurse = 0 ∨ nurse = pyNone ∨ patient = pyNone
  · simp [keep_alive_pyobj, hg]
  · by_cases hhas : ka_has_plain ((mfind w.keep_alive nurse).getD []) patient
    · simp only [keep_alive_pyobj, if_neg hg, hnb, if_pos rfl, ite_true, hhas] at h1
      simp only [Except.ok.injEq] at h1
      subst h1
      simp [keep_alive_pyobj, hg, hnb, hhas]
    · simp only [keep_alive_pyobj, if_neg hg, hnb, ite_true, hhas, ite_false,
        Bool.false_eq_true, if_false, Except.ok.injEq] at h1
      subst h1
      simp only [keep_alive_pyobj, if_neg hg, hnb, ite_true, World.setInst,
        World.setRef, incref]
      rw [mfind_mset_self]
      simp [ka_has_plain]

theorem keep_alive_idempotent_witness :
    envW.isNbInst 3 = true ∧
    ∃ w1, keep_alive_pyobj envW wEmpty 3 4 = .ok w1 ∧
      keep_alive_pyobj envW w1 3 4 = .ok w1 := by
  refine ⟨rfl, _, rfl, ?_⟩
  exact keep_alive_idempotent envW wEmpty _ 3 4 rfl rfl

theorem seq_append_not_mem (l : List Nat) (i : Nat) (h : i ∉ l) :
    seq_append l i = .ok (l ++ [i]) := by
  induction l with
  | nil => rfl
  | cons x xs ih =>
    simp only [List.mem_cons, not_or] at h
    rw [seq_append, if_neg (fun hx => h.1 hx.symm), ih h.2]
    rfl

theorem c2p_register_fresh (m : List (Nat × Entry)) (p i : Nat)
    (h : i ∉ entryListAt m p) :
    c2p_register m p i = .ok (match mfind m p with
      | none => mset m p (.direct i)
      | some e => mset m p (.seq (e.toList ++ [i]))) := by
  unfold entryListAt at h
  unfold c2p_register
  cases hm : mfind m p with
  | none => simp
  | some e =>
    rw [hm] at h
    simp only [] at h
    simp [seq_append_not_mem e.toList i h, Except.map]

/-- C7: under the `move` policy for a non-intrusive type, a
move-constructible type is materialized with its move constructor (or the
byte-copy-and-zero fast path when it has no move function); a type that is
only copy-constructible falls back to the copy policy and copy-constructs
(or byte-copies); a type that is neither fails with a descriptive fatal
error naming the type. -/
theorem move_fallback_chain (env : Env) (w : World) (value : Nat) (t : TypeData)
    (cs : Option Nat)
    (hintr : t.intrusive_ptr = false)
    (hfresh : w.nextId ∉ entryListAt w.inst_c2p
      (inst_ptr (inst_new_header w.nextAddr t none))) :
    (t.is_move_constructible = true → t.has_move = true → t.move_raises = false →
      ∃ w2, nb_type_put_common env w value t .move cs =
        .ok (some w.nextId, true, w2, [Event.moveCtor])) ∧
    (t.is_move_constructible = true → t.has_move = false →
      ∃ w2, nb_type_put_common env w value t .move cs =
        .ok (some w.nextId, true, w2, [Event.memcpyMoveZero])) ∧
    (t.is_move_constructible = false → t.is_copy_constructible = true →
      t.has_copy = true → t.copy_raises = false →
      ∃ w2, nb_type_put_common env w value t .move cs =
        .ok (some w.nextId, true, w2, [Event.copyCtor])) ∧
    (t.is_move_constructible = false → t.is_copy_constructible = true →
      t.has_copy = false →
      ∃ w2, nb_type_put_common env w value t .move cs =
        .ok (some w.nextId, true, w2, [Event.memcpyCopy])) ∧
    (t.is_move_constructible = false → t.is_copy_constructible = false →
      nb_type_put_common env w value t .move cs =
        .error (.notMoveOrCopyConstructible t.name)) := by
  have hreg := c2p_register_fresh w.inst_c2p
    (inst_ptr (inst_new_header w.nextAddr t none)) w.nextId hfresh
  refine ⟨?_, ?_, ?_, ?_, ?_⟩
  · intro h1 h2 h3
    simp [nb_type_put_common, move_step, copy_step, finalize_step, hintr,
      inst_new_impl, hreg, h1, h2, h3, Except.map, Except.bind]
  · intro h1 h2
    simp [nb_type_put_common, move_step, copy_step, finalize_step, hintr,
      inst_new_impl, hreg, h1, h2, Except.map, Except.bind]
  · intro h1 h2 h3 h4
    simp [nb_type_put_common, move_step, copy_step, finalize_step, hintr,
      inst_new_impl, hreg, h1, h2, h3, h4, Except.map, Except.bind]
  · intro h1 h2 h3
    simp [nb_type_put_common, move_step, copy_step, finalize_step, hintr,
      inst_new_impl, hreg, h1, h2, h3, Except.map, Except.bind]
  · intro h1 h2
    simp [nb_type_put_common, move_step, copy_step, finalize_step, hintr,
      inst_new_impl, hreg, h1, h2, Except.map, Except.bind]

theorem move_fallback_chain_witness :
    (tdW.intrusive_ptr = false ∧
      (50 : Nat) ∉ entryListAt wEmpty.inst_c2p
        (inst_ptr (inst_new_header wEmpty.nextAddr tdW none)) ∧
      tdW.is_move_constructible = true ∧ tdW.has_move = true ∧
      tdW.move_raises = false ∧
      ∃ w2, nb_type_put_common envW wEmpty 500 tdW .move none =
        .ok (some 50, true, w2, [Event.moveCtor])) ∧
    (tdMemMove.has_move = false ∧
      ∃ w2, nb_type_put_common envW wEmpty 500 tdMemMove .move none =
        .ok (some 50, true, w2, [Event.memcpyMoveZero])) ∧
    (tdCopyFall.is_move_constructible = false ∧
      ∃ w2, nb_type_put_common envW wEmpty 500 tdCopyFall .move none =
        .ok (some 50, true, w2, [Event.copyCtor])) ∧
    (∃ w2, nb_type_put_common envW wEmpty 500 tdMemCopy .move none =
        .ok (some 50, true, w2, [Event.memcpyCopy])) ∧
    (tdNoCtor.is_copy_constructible = false ∧
      nb_type_put_common envW wEmpty 500 tdNoCtor .move none =
        .error (.notMoveOrCopyConstructible tdNoCtor.name)) := by
  have hf : ∀ t : TypeData, (50 : Nat) ∉ entryListAt wEmpty.inst_c2p
      (inst_ptr (inst_new_header wEmpty.nextAddr t none)) := by
    intro t
    simp [wEmpty, entryListAt, mfind]
  refine ⟨⟨rfl, hf tdW, rfl, rfl, rfl, ?_⟩, ⟨rfl, ?_⟩, ⟨rfl, ?_⟩, ?_, ⟨rfl, ?_⟩⟩
  · exact (move_fallback_chain envW wEmpty 500 tdW none rfl (hf tdW)).1 rfl rfl rfl
  · exact (move_fallback_chain envW wEmpty 500 tdMemMove none rfl (hf tdMemMove)).2.1 rfl rfl
  · exact (move_fallback_chain envW wEmpty 500 tdCopyFall none rfl
      (hf tdCopyFall)).2.2.1 rfl rfl rfl rfl
  · exact (move_fallback_chain envW wEmpty 500 tdMemCopy none rfl
      (hf tdMemCopy)).2.2.2.1 rfl rfl rfl
  · exact (move_fallback_chain envW wEmpty 500 tdNoCtor none rfl
      (hf tdNoCtor)).2.2.2.2 rfl rfl

theorem except_bind_ok {ε α β : Type} (x : Except ε α) (f : α → Except ε β) (b : β)
    (h : x.bind f = .ok b) : ∃ a, x = .ok a ∧ f a = .ok b := by
  cases x with
  | error e => simp [Except.bind] at h
  | ok a => exact ⟨a, rfl, h⟩

theorem except_map_ok {ε α β : Type} (x : Except ε α) (f : α → β) (b : β)
    (h : x.map f = .ok b) : ∃ a, x = .ok a ∧ f a = b := by
  cases x with
  | error e => simp [Except.map] at h
  | ok a =>
    simp only [Except.map, Except.ok.injEq] at h
    exact ⟨a, rfl, h⟩

/-- A successful pass through the move block leaves the policy unchanged
except for the copy fallback of a non-move-constructible type. -/
theorem move_step_ok_policy (t : TypeData) (rvp1 rvp2 : RvPolicy) (ev : List Event)
    (h : move_step t rvp1 = .ok (some rvp2, ev)) :
    rvp2 = if rvp1 = RvPolicy.move ∧ ¬t.is_move_constructible then RvPolicy.copy
           else rvp1 := by
  unfold move_step at h
  by_cases h1 : rvp1 = RvPolicy.move <;>
    by_cases h2 : t.is_move_constructible = true <;>
    by_cases h3 : t.has_move = true <;>
    by_cases h4 : t.move_raises = true <;>
    by_cases h5 : t.is_copy_constructible = true <;>
    simp_all

/-- The keep-alive registration never touches the ownership or readiness
flags of any instance. -/
theorem keep_alive_pyobj_flags (env : Env) (w : World) (n p : Nat) (w2 : World)
    (h : keep_alive_pyobj env w n p = .ok w2) (j : Nat) :
    (w2.insts j).destruct = (w.insts j).destruct ∧
    (w2.insts j).cpp_delete = (w.insts j).cpp_delete ∧
    (w2.insts j).ready = (w.insts j).ready := by
  unfold keep_alive_pyobj at h
  split at h
  · cases h
    exact ⟨rfl, rfl, rfl⟩
  · split at h
    · simp only [] at h
      by_cases hh : ka_has_plain ((mfind w.keep_alive n).getD []) p = true
      · rw [if_pos hh] at h
        cases h
        exact ⟨rfl, rfl, rfl⟩
      · rw [if_neg hh] at h
        simp only [Except.ok.injEq] at h
        subst h
        by_cases hj : j = n <;> simp [World.setInst, World.setRef, incref, hj]
    · split at h
      · simp only [Except.ok.injEq] at h
        subst h
        simp [incref, World.setRef]
      · exact Except.noConfusion h

/-- The finalization tail stores the flag pair derived from the final
policy (the `shared_from_this` handover included) into the new instance. -/
theorem finalize_step_flags (env : Env) (t : TypeData) (rvp1 rvp2 : RvPolicy)
    (cs : Option Nat) (i : Nat) (w1 : World) (ev : List Event)
    (i2 : Nat) (nw : Bool) (w3 : World) (ev2 : List Event)
    (h : finalize_step env t rvp1 rvp2 cs i w1 ev = .ok (some i2, nw, w3, ev2)) :
    i2 = i ∧
    (w3.insts i).destruct =
      decide ((if t.has_shared_from_this ∧ ¬(rvp1 = RvPolicy.copy ∨ rvp1 = RvPolicy.move) ∧ t.ksfta
               then RvPolicy.reference else rvp2) ≠ RvPolicy.reference ∧
              (if t.has_shared_from_this ∧ ¬(rvp1 = RvPolicy.copy ∨ rvp1 = RvPolicy.move) ∧ t.ksfta
               then RvPolicy.reference else rvp2) ≠ RvPolicy.reference_internal) ∧
    (w3.insts i).cpp_delete =
      decide ((if t.has_shared_from_this ∧ ¬(rvp1 = RvPolicy.copy ∨ rvp1 = RvPolicy.move) ∧ t.ksfta
               then RvPolicy.reference else rvp2) = RvPolicy.take_ownership) := by
  unfold finalize_step at h
  simp only [] at h
  by_cases hsft : t.has_shared_from_this ∧
      ¬(rvp1 = RvPolicy.copy ∨ rvp1 = RvPolicy.move) ∧ t.ksfta
  · rw [if_pos hsft] at h
    rw [if_pos hsft]
    rw [if_neg (by decide : ¬(RvPolicy.reference = RvPolicy.reference_internal))] at h
    obtain ⟨w0, hw0, hb⟩ := except_map_ok _ _ _ h
    cases hw0
    simp only [Prod.mk.injEq, Option.some.injEq] at hb
    obtain ⟨hi, _, hw, _⟩ := hb
    subst hi
    subst hw
    simp [World.setInst]
  · rw [if_neg hsft] at h
    rw [if_neg hsft]
    by_cases hri : rvp2 = RvPolicy.reference_internal
    · subst hri
      rw [if_pos rfl] at h
      cases cs with
      | none =>
        obtain ⟨w0, hw0, hb⟩ := except_map_ok _ _ _ h
        cases hw0
        simp only [Prod.mk.injEq, Option.some.injEq] at hb
        obtain ⟨hi, _, hw, _⟩ := hb
        subst hi
        subst hw
        simp [World.setInst]
      | some s =>
        obtain ⟨wk, hka, hb⟩ := except_map_ok _ _ _ h
        simp only [Prod.mk.injEq, Option.some.injEq] at hb
        obtain ⟨hi, _, hw, _⟩ := hb
        subst hi
        subst hw
        have hfl := keep_alive_pyobj_flags env _ i s wk hka i
        refine ⟨rfl, ?_, ?_⟩ <;>
          simp [hfl.1, hfl.2.1, World.setInst]
    · rw [if_neg hri] at h
      obtain ⟨w0, hw0, hb⟩ := except_map_ok _ _ _ h
      cases hw0
      simp only [Prod.mk.injEq, Option.some.injEq] at hb
      obtain ⟨hi, _, hw, _⟩ := hb
      subst hi
      subst hw
      simp [World.setInst]

/-- C8: every wrapper newly created by `nb_type_put_common` has `destruct`
set iff the effective policy is neither `reference` nor
`reference_internal`, and `cpp_delete` set iff the effective policy is
`take_ownership`; in particular `reference` / `reference_internal`
wrappers own neither a destructor call nor a memory release. -/
theorem policy_flag_mapping (env : Env) (w : World) (value : Nat) (t : TypeData)
    (rvp : RvPolicy) (cs : Option Nat) (i : Nat) (nw : Bool) (w2 : World)
    (evs : List Event)
    (h : nb_type_put_common env w value t rvp cs = .ok (some i, nw, w2, evs)) :
    ((w2.insts i).destruct = true ↔
      (effective_policy t rvp ≠ RvPolicy.reference ∧
       effective_policy t rvp ≠ RvPolicy.reference_internal)) ∧
    ((w2.insts i).cpp_delete = true ↔
      effective_policy t rvp = RvPolicy.take_ownership) ∧
    ((effective_policy t rvp = RvPolicy.reference ∨
      effective_policy t rvp = RvPolicy.reference_internal) →
      (w2.insts i).destruct = false ∧ (w2.insts i).cpp_delete = false) := by
  unfold nb_type_put_common at h
  by_cases hguard : rvp = RvPolicy.reference_internal ∧ cs = none
  · rw [if_pos hguard] at h
    exact absurd h (by simp)
  · rw [if_neg hguard] at h
    try simp only [] at h
    obtain ⟨a, hE, h⟩ := except_bind_ok _ _ _ h
    try simp only [] at h
    obtain ⟨mres, hM, h⟩ := except_bind_ok _ _ _ h
    obtain ⟨orvp2, evm⟩ := mres
    cases orvp2 with
    | none => simp at h
    | some rvp2 =>
      try simp only [] at h
      obtain ⟨cres, hC, h⟩ := except_bind_ok _ _ _ h
      obtain ⟨ou, evc⟩ := cres
      cases ou with
      | none => simp at h
      | some u =>
        try simp only [] at h
        obtain ⟨hi2, hdes, hdel⟩ :=
          finalize_step_flags env t _ rvp2 cs a.1 a.2 (evm ++ evc) i nw w2 evs h
        subst hi2
        have hpol := move_step_ok_policy t _ rvp2 evm hM
        have heff : effective_policy t rvp =
            (if t.has_shared_from_this ∧
                ¬((if t.intrusive_ptr then RvPolicy.take_ownership else rvp) =
                    RvPolicy.copy ∨
                  (if t.intrusive_ptr then RvPolicy.take_ownership else rvp) =
                    RvPolicy.move) ∧ t.ksfta
             then RvPolicy.reference else rvp2) := by
          rw [hpol]
          rfl
        rw [heff, hdes, hdel]
        refine ⟨by simp only [decide_eq_true_eq], by simp only [decide_eq_true_eq], ?_⟩
        intro hor
        rcases hor with hx | hx <;> rw [hx] <;> simp

theorem policy_flag_mapping_witness :
    ∃ w2, nb_type_put_common envW wEmpty 500 tdW .take_ownership none =
        .ok (some 50, true, w2, []) ∧
      (((w2.insts 50).destruct = true ↔
         (effective_policy tdW .take_ownership ≠ RvPolicy.reference ∧
          effective_policy tdW .take_ownership ≠ RvPolicy.reference_internal)) ∧
       ((w2.insts 50).cpp_delete = true ↔
         effective_policy tdW .take_ownership = RvPolicy.take_ownership) ∧
       ((effective_policy tdW .take_ownership = RvPolicy.reference ∨
         effective_policy tdW .take_ownership = RvPolicy.reference_internal) →
         (w2.insts 50).destruct = false ∧ (w2.insts 50).cpp_delete = false)) := by
  obtain ⟨w2, hcomp, _⟩ := put_common_fresh envW wEmpty 500 tdW none rfl rfl rfl
  exact ⟨w2, hcomp,
    policy_flag_mapping envW wEmpty 500 tdW .take_ownership none 50 true w2 [] hcomp⟩

theorem mfind_eq_none_of_not_key {α : Type} (m : List (Nat × α)) (p : Nat)
    (h : p ∉ m.map Prod.fst) : mfind m p = none := by
  induction m with
  | nil => rfl
  | cons kv rest ih =>
    obtain ⟨k, v⟩ := kv
    simp only [List.map_cons, List.mem_cons, not_or] at h
    have hk : ¬k = p := fun hc => h.1 hc.symm
    simp [mfind, hk, ih h.2]

theorem mfind_merase_self {α : Type} (m : List (Nat × α)) (p : Nat)
    (hkeys : (m.map Prod.fst).Nodup) : mfind (merase m p) p = none := by
  induction m with
  | nil => rfl
  | cons kv rest ih =>
    obtain ⟨k, v⟩ := kv
    simp only [List.map_cons, List.nodup_cons] at hkeys
    by_cases hk : k = p
    · subst hk
      simp only [merase, if_pos rfl]
      exact mfind_eq_none_of_not_key rest k hkeys.1
    · simp [merase, hk, mfind, ih hkeys.2]

theorem seq_append_mem (l : List Nat) (i : Nat) (h : i ∈ l) :
    seq_append l i = .error .duplicateInstance := by
  induction l with
  | nil => simp at h
  | cons x xs ih =>
    by_cases hxi : x = i
    · rw [seq_append, if_pos hxi]
    · rcases List.mem_cons.mp h with hx | hx
      · exact absurd hx.symm hxi
      · rw [seq_append, if_neg hxi, ih hx]
        rfl

theorem seq_remove_eq (l : List Nat) (i : Nat) :
    seq_remove l i = if i ∈ l then some (l.erase i) else none := by
  induction l with
  | nil => simp [seq_remove]
  | cons x xs ih =>
    by_cases hx : x = i
    · subst hx
      simp [seq_remove, List.erase_cons_head]
    · rw [seq_remove, if_neg hx, ih]
      have hix : ¬i = x := fun hc => hx hc.symm
      by_cases hm : i ∈ xs
      · rw [List.erase_cons_tail (not_beq_of_ne hx)]
        simp [hm, hix]
      · simp [hm, hix]

/-- C9: identity-map encoding invariant.  A first wrapper for an address
is stored in the direct encoding; a second wrapper lazily creates the
tagged two-element list; inserting a wrapper already present for the
address is fatal; a fresh wrapper is always appended exactly once at the
tail.  Removal erases the map entry when the wrapper was the only element
(direct or singleton list), rewrites the still-tagged head when the head
of a longer list is removed, and otherwise unlinks exactly the wrapper's
node; a tagged list never reverts to the direct encoding; removing an
untracked wrapper is fatal. -/
theorem identity_map_encoding_invariant :
    (∀ (m : List (Nat × Entry)) (p i : Nat),
       mfind m p = none →
       c2p_register m p i = .ok (mset m p (.direct i))) ∧
    (∀ (m : List (Nat × Entry)) (p i x : Nat),
       mfind m p = some (.direct x) → x ≠ i →
       c2p_register m p i = .ok (mset m p (.seq [x, i]))) ∧
    (∀ (m : List (Nat × Entry)) (p i : Nat) (e : Entry),
       mfind m p = some e → i ∈ e.toList →
       c2p_register m p i = .error .duplicateInstance) ∧
    (∀ (m : List (Nat × Entry)) (p i : Nat) (e : Entry),
       mfind m p = some e → i ∉ e.toList →
       ∃ m2, c2p_register m p i = .ok m2 ∧
         entryListAt m2 p = e.toList ++ [i]) ∧
    (∀ (m : List (Nat × Entry)) (p i : Nat),
       mfind m p = some (.direct i) →
       c2p_remove m p i = some (merase m p)) ∧
    (∀ (m : List (Nat × Entry)) (p i : Nat),
       mfind m p = some (.seq [i]) →
       c2p_remove m p i = some (merase m p)) ∧
    (∀ (m : List (Nat × Entry)) (p i : Nat) (rest : List Nat),
       mfind m p = some (.seq (i :: rest)) → rest ≠ [] →
       c2p_remove m p i = some (mset m p (.seq rest))) ∧
    (∀ (m : List (Nat × Entry)) (p i : Nat) (l : List Nat) (m2 : List (Nat × Entry)),
       (m.map Prod.fst).Nodup →
       mfind m p = some (.seq l) → c2p_remove m p i = some m2 →
       mfind m2 p = none ∨ ∃ l2, mfind m2 p = some (.seq l2)) ∧
    (∀ (m : List (Nat × Entry)) (p i : Nat) (l : List Nat),
       mfind m p = some (.seq l) → i ∈ l →
       c2p_remove m p i = some (if l.erase i = [] then merase m p
                                else mset m p (.seq (l.erase i)))) ∧
    (∀ (m : List (Nat × Entry)) (p i : Nat),
       (mfind m p = none ∨ (∃ x, mfind m p = some (.direct x) ∧ x ≠ i) ∨
        (∃ l, mfind m p = some (.seq l) ∧ i ∉ l)) →
       c2p_remove m p i = none) := by
  refine ⟨?_, ?_, ?_, ?_, ?_, ?_, ?_, ?_, ?_, ?_⟩
  · intro m p i h
    simp [c2p_register, h]
  · intro m p i x h hx
    simp [c2p_register, h, Entry.toList, seq_append,
      fun hc => hx (by simpa using hc), Except.map]
  · intro m p i e h hm
    simp [c2p_register, h, seq_append_mem e.toList i hm, Except.map]
  · intro m p i e h hm
    refine ⟨mset m p (.seq (e.toList ++ [i])), ?_, ?_⟩
    · simp [c2p_register, h, seq_append_not_mem e.toList i hm, Except.map]
    · simp [entryListAt, mfind_mset_self, Entry.toList]
  · intro m p i h
    simp [c2p_remove, h]
  · intro m p i h
    simp [c2p_remove, h, seq_remove]
  · intro m p i rest h hrest
    simp [c2p_remove, h, seq_remove, hrest]
  · intro m p i l m2 hkeys h hr
    simp only [c2p_remove, h] at hr
    rw [seq_remove_eq] at hr
    by_cases hm : i ∈ l
    · rw [if_pos hm] at hr
      by_cases he : l.erase i = []
      · rw [he] at hr
        simp only [Option.some.injEq] at hr
        subst hr
        exact Or.inl (mfind_merase_self m p hkeys)
      · rcases hl : l.erase i with _ | ⟨y, ys⟩
        · exact absurd hl he
        · rw [hl] at hr
          simp only [Option.some.injEq] at hr
          subst hr
          exact Or.inr ⟨y :: ys, mfind_mset_self _ _ _⟩
    · rw [if_neg hm] at hr
      exact Option.noConfusion hr
  · intro m p i l h hm
    simp only [c2p_remove, h]
    rw [seq_remove_eq, if_pos hm]
    by_cases he : l.erase i = []
    · simp [he]
    · rcases hl : l.erase i with _ | ⟨y, ys⟩
      · exact absurd hl he
      · simp [he, hl]
  · intro m p i h
    rcases h with h | ⟨x, h, hx⟩ | ⟨l, h, hl⟩
    · simp [c2p_remove, h]
    · simp [c2p_remove, h, fun hc => hx hc]
    · simp [c2p_remove, h, seq_remove_eq, hl]

theorem identity_map_encoding_invariant_witness :
    (mfind ([] : List (Nat × Entry)) 7 = none ∧
      c2p_register [] 7 3 = .ok (mset [] 7 (.direct 3))) ∧
    (mfind [(7, Entry.direct 3)] 7 = some (.direct 3) ∧ (3 : Nat) ≠ 4 ∧
      c2p_register [(7, Entry.direct 3)] 7 4 =
        .ok (mset [(7, Entry.direct 3)] 7 (.seq [3, 4]))) ∧
    (mfind [(7, Entry.seq [3, 4])] 7 = some (.seq [3, 4]) ∧
      (4 : Nat) ∈ (Entry.seq [3, 4]).toList ∧
      c2p_register [(7, Entry.seq [3, 4])] 7 4 = .error .duplicateInstance) ∧
    ((5 : Nat) ∉ (Entry.seq [3, 4]).toList ∧
      ∃ m2, c2p_register [(7, Entry.seq [3, 4])] 7 5 = .ok m2 ∧
        entryListAt m2 7 = (Entry.seq [3, 4]).toList ++ [5]) ∧
    (c2p_remove [(7, Entry.direct 3)] 7 3 = some (merase [(7, Entry.direct 3)] 7)) ∧
    (c2p_remove [(7, Entry.seq [3])] 7 3 = some (merase [(7, Entry.seq [3])] 7)) ∧
    (([4] : List Nat) ≠ [] ∧
      c2p_remove [(7, Entry.seq [3, 4])] 7 3 =
        some (mset [(7, Entry.seq [3, 4])] 7 (.seq [4]))) ∧
    (([(7, Entry.seq [3, 4])].map Prod.fst).Nodup ∧
      ∀ m2, c2p_remove [(7, Entry.seq [3, 4])] 7 3 = some m2 →
        mfind m2 7 = none ∨ ∃ l2, mfind m2 7 = some (.seq l2)) ∧
    ((4 : Nat) ∈ ([3, 4, 5] : List Nat) ∧
      c2p_remove [(7, Entry.seq [3, 4, 5])] 7 4 =
        some (if ([3, 4, 5] : List Nat).erase 4 = [] then merase [(7, Entry.seq [3, 4, 5])] 7
              else mset [(7, Entry.seq [3, 4, 5])] 7 (.seq (([3, 4, 5] : List Nat).erase 4)))) ∧
    (c2p_remove [(7, Entry.seq [3, 4])] 7 9 = none) := by
  obtain ⟨h1, h2, h3, h4, h5, h6, h7, h8, h9, h10⟩ := identity_map_encoding_invariant
  refine ⟨⟨rfl, h1 [] 7 3 rfl⟩,
          ⟨rfl, by decide, h2 [(7, Entry.direct 3)] 7 4 3 rfl (by decide)⟩,
          ⟨rfl, by decide, h3 [(7, Entry.seq [3, 4])] 7 4 (.seq [3, 4]) rfl (by decide)⟩,
          ⟨by decide, h4 [(7, Entry.seq [3, 4])] 7 5 (.seq [3, 4]) rfl (by decide)⟩,
          h5 [(7, Entry.direct 3)] 7 3 rfl,
          h6 [(7, Entry.seq [3])] 7 3 rfl,
          ⟨by decide, h7 [(7, Entry.seq [3, 4])] 7 3 [4] rfl (by decide)⟩,
          ⟨by decide, fun m2 hm2 =>
            h8 [(7, Entry.seq [3, 4])] 7 3 [3, 4] m2 (by decide) rfl hm2⟩,
          ⟨by decide, h9 [(7, Entry.seq [3, 4, 5])] 7 4 [3, 4, 5] rfl (by decide)⟩,
          h10 [(7, Entry.seq [3, 4])] 7 9 (Or.inr (Or.inr ⟨[3, 4], rfl, by decide⟩))⟩

theorem ka_release_state_c2p (l : List KANode) (w : World) :
    (ka_release_state w l).inst_c2p = w.inst_c2p := by
  induction l generalizing w with
  | nil => rfl
  | cons n rest ih =>
    rw [ka_release_state, List.foldl_cons]
    cases hn : n.callback <;> simp only [hn] <;> exact ih _

theorem ka_release_state_keep_alive (l : List KANode) (w : World) :
    (ka_release_state w l).keep_alive = w.keep_alive := by
  induction l generalizing w with
  | nil => rfl
  | cons n rest ih =>
    rw [ka_release_state, List.foldl_cons]
    cases hn : n.callback <;> simp only [hn] <;> exact ih _

/-- Successful deallocation of a wrapper holding keep-alive edges: full
trace shape. -/
theorem inst_dealloc_ok_ka (env : Env) (w : World) (selfId : Nat)
    (L : List KANode) (m2 : List (Nat × Entry))
    (hd : ¬((w.insts selfId).destruct = true ∧
           (env.tdOfTy (w.insts selfId).ty).is_destructible = false))
    (hka : (w.insts selfId).clear_keep_alive = true)
    (hL : mfind w.keep_alive selfId = some L)
    (hrm : c2p_remove w.inst_c2p (inst_ptr (w.insts selfId)) selfId = some m2) :
    inst_dealloc env w selfId =
      .ok ({ ka_release_state
               { w with keep_alive := merase w.keep_alive selfId } L with
             inst_c2p := m2 },
           (if (env.tdOfTy (w.insts selfId).ty).has_dynamic_attr = true
            then [Event.clearDict] else []) ++
           (if (w.insts selfId).destruct = true ∧
               (env.tdOfTy (w.insts selfId).ty).has_destruct = true
            then [Event.destructorCall (inst_ptr (w.insts selfId))] else []) ++
           (if (w.insts selfId).cpp_delete = true
            then [Event.opDelete (inst_ptr (w.insts selfId))
                   (decide (defaultNewAlign < (env.tdOfTy (w.insts selfId).ty).align))]
            else []) ++
           (Event.kaRemoveEntry selfId :: ka_release_events L) ++
           [Event.c2pErase (inst_ptr (w.insts selfId)), Event.freeSelf,
            Event.decrefType]) := by
  unfold inst_dealloc
  simp only []
  rw [if_neg (by simpa using hd)]
  simp only [hka, ite_true, hL, Except.bind, ka_release_state_c2p, hrm]

/-- Successful deallocation of a wrapper without keep-alive edges. -/
theorem inst_dealloc_ok_noka (env : Env) (w : World) (selfId : Nat)
    (m2 : List (Nat × Entry))
    (hd : ¬((w.insts selfId).destruct = true ∧
           (env.tdOfTy (w.insts selfId).ty).is_destructible = false))
    (hka : (w.insts selfId).clear_keep_alive = false)
    (hrm : c2p_remove w.inst_c2p (inst_ptr (w.insts selfId)) selfId = some m2) :
    inst_dealloc env w selfId =
      .ok ({ w with inst_c2p := m2 },
           (if (env.tdOfTy (w.insts selfId).ty).has_dynamic_attr = true
            then [Event.clearDict] else []) ++
           (if (w.insts selfId).destruct = true ∧
               (env.tdOfTy (w.insts selfId).ty).has_destruct = true
            then [Event.destructorCall (inst_ptr (w.insts selfId))] else []) ++
           (if (w.insts selfId).cpp_delete = true
            then [Event.opDelete (inst_ptr (w.insts selfId))
                   (decide (defaultNewAlign < (env.tdOfTy (w.insts selfId).ty).align))]
            else []) ++
           [] ++
           [Event.c2pErase (inst_ptr (w.insts selfId)), Event.freeSelf,
            Event.decrefType]) := by
  unfold inst_dealloc
  simp only []
  rw [if_neg (by simpa using hd)]
  simp only [hka, Bool.false_eq_true, if_false, ite_false, Except.bind, hrm]

/-- C2: `inst_dealloc` performs, in this order and each conditioned on the
wrapper's flags: dynamic-attribute dictionary clearing, native destructor
invocation (fatal for a non-destructible type), alignment-correct payload
release, keep-alive release (fatal when the keep-alive entry is missing),
identity-map removal (fatal when the wrapper is untracked), and the
object-header release. -/
theorem inst_dealloc_sequence (env : Env) (w : World) (selfId : Nat) :
    (((w.insts selfId).destruct = true ∧
      (env.tdOfTy (w.insts selfId).ty).is_destructible = false) →
      inst_dealloc env w selfId =
        .error (.nonDestructible (env.tdOfTy (w.insts selfId).ty).name)) ∧
    (¬((w.insts selfId).destruct = true ∧
       (env.tdOfTy (w.insts selfId).ty).is_destructible = false) →
      (w.insts selfId).clear_keep_alive = true →
      mfind w.keep_alive selfId = none →
      inst_dealloc env w selfId =
        .error (.kaInconsistent (env.tdOfTy (w.insts selfId).ty).name)) ∧
    (¬((w.insts selfId).destruct = true ∧
       (env.tdOfTy (w.insts selfId).ty).is_destructible = false) →
      (w.insts selfId).clear_keep_alive = false →
      c2p_remove w.inst_c2p (inst_ptr (w.insts selfId)) selfId = none →
      inst_dealloc env w selfId =
        .error (.unknownInstance (env.tdOfTy (w.insts selfId).ty).name)) ∧
    (∀ m2,
      ¬((w.insts selfId).destruct = true ∧
        (env.tdOfTy (w.insts selfId).ty).is_destructible = false) →
      (w.insts selfId).clear_keep_alive = false →
      c2p_remove w.inst_c2p (inst_ptr (w.insts selfId)) selfId = some m2 →
      inst_dealloc env w selfId =
        .ok ({ w with inst_c2p := m2 },
             (if (env.tdOfTy (w.insts selfId).ty).has_dynamic_attr = true
              then [Event.clearDict] else []) ++
             (if (w.insts selfId).destruct = true ∧
                 (env.tdOfTy (w.insts selfId).ty).has_destruct = true
              then [Event.destructorCall (inst_ptr (w.insts selfId))] else []) ++
             (if (w.insts selfId).cpp_delete = true
              then [Event.opDelete (inst_ptr (w.insts selfId))
                     (decide (defaultNewAlign < (env.tdOfTy (w.insts selfId).ty).align))]
              else []) ++
             [] ++
             [Event.c2pErase (inst_ptr (w.insts selfId)), Event.freeSelf,
              Event.decrefType])) ∧
    (∀ L m2,
      ¬((w.insts selfId).destruct = true ∧
        (env.tdOfTy (w.insts selfId).ty).is_destructible = false) →
      (w.insts selfId).clear_keep_alive = true →
      mfind w.keep_alive selfId = some L →
      c2p_remove w.inst_c2p (inst_ptr (w.insts selfId)) selfId = some m2 →
      inst_dealloc env w selfId =
        .ok ({ ka_release_state
                 { w with keep_alive := merase w.keep_alive selfId } L with
               inst_c2p := m2 },
             (if (env.tdOfTy (w.insts selfId).ty).has_dynamic_attr = true
              then [Event.clearDict] else []) ++
             (if (w.insts selfId).destruct = true ∧
                 (env.tdOfTy (w.insts selfId).ty).has_destruct = true
              then [Event.destructorCall (inst_ptr (w.insts selfId))] else []) ++
             (if (w.insts selfId).cpp_delete = true
              then [Event.opDelete (inst_ptr (w.insts selfId))
                     (decide (defaultNewAlign < (env.tdOfTy (w.insts selfId).ty).align))]
              else []) ++
             (Event.kaRemoveEntry selfId :: ka_release_events L) ++
             [Event.c2pErase (inst_ptr (w.insts selfId)), Event.freeSelf,
              Event.decrefType])) := by
  refine ⟨?_, ?_, ?_, ?_, ?_⟩
  · intro hdf
    unfold inst_dealloc
    simp only []
    rw [if_pos (by simpa using hdf)]
  · intro hd hka hnone
    unfold inst_dealloc
    simp only []
    rw [if_neg (by simpa using hd)]
    simp only [hka, ite_true, hnone, Except.bind]
  · intro hd hka hnone
    unfold inst_dealloc
    simp only []
    rw [if_neg (by simpa using hd)]
    simp only [hka, Bool.false_eq_true, if_false, ite_false, Except.bind, hnone]
  · intro m2 hd hka hrm
    exact inst_dealloc_ok_noka env w selfId m2 hd hka hrm
  · intro L m2 hd hka hL hrm
    exact inst_dealloc_ok_ka env w selfId L m2 hd hka hL hrm

theorem inst_dealloc_sequence_witness :
    (¬((wDel.insts 3).destruct = true ∧
       (envW.tdOfTy (wDel.insts 3).ty).is_destructible = false) ∧
     (wDel.insts 3).clear_keep_alive = true ∧
     mfind wDel.keep_alive 3 = some [⟨4, none⟩] ∧
     c2p_remove wDel.inst_c2p (inst_ptr (wDel.insts 3)) 3 = some []) ∧
    ∃ w2 tr, inst_dealloc envW wDel 3 = .ok (w2, tr) ∧
      tr = [Event.destructorCall 1000, Event.opDelete 1000 false,
            Event.kaRemoveEntry 3, Event.kaDecref 4, Event.kaFreeNode,
            Event.c2pErase 1000, Event.freeSelf, Event.decrefType] := by
  have h := (inst_dealloc_sequence envW wDel 3).2.2.2.2 [⟨4, none⟩] []
    (by decide) rfl rfl (by decide)
  exact ⟨⟨by decide, rfl, rfl, by decide⟩, _, _, h, by decide⟩

theorem releaseEvent_inj (m n : KANode) :
    releaseEvent m = releaseEvent n ↔ m = n := by
  rcases m with ⟨mp, _ | mc⟩ <;> rcases n with ⟨np, _ | nc⟩ <;>
    simp [releaseEvent, and_comm]

theorem ka_release_events_cons (m : KANode) (rest : List KANode) :
    ka_release_events (m :: rest) =
      releaseEvent m :: Event.kaFreeNode :: ka_release_events rest := by
  cases hm : m.callback <;> simp [ka_release_events, releaseEvent, hm]

theorem releaseEvent_ne_free (n : KANode) : releaseEvent n ≠ Event.kaFreeNode := by
  rcases n with ⟨np, _ | nc⟩ <;> simp [releaseEvent]

theorem ka_release_events_count (L : List KANode) (n : KANode) :
    (ka_release_events L).count (releaseEvent n) = L.count n := by
  induction L with
  | nil => simp [ka_release_events]
  | cons m rest ih =>
    rw [ka_release_events_cons]
    have hfree : ¬Event.kaFreeNode = releaseEvent n :=
      fun h => releaseEvent_ne_free n h.symm
    simp [List.count_cons, ih, releaseEvent_inj, hfree]

theorem ka_release_events_filter_cb (cs : List Nat) (payload : Nat) :
    (ka_release_events (cs.map (fun c => (⟨payload, some c⟩ : KANode)))).filter
        Event.isKaCallback =
      cs.map (fun c => Event.kaCallback c payload) := by
  induction cs with
  | nil => rfl
  | cons c rest ih =>
    rw [List.map_cons, ka_release_events_cons]
    simp [Event.isKaCallback, ih, releaseEvent]

theorem mem_keys_mset {α : Type} (m : List (Nat × α)) (k q : Nat) (v : α) :
    q ∈ (mset m k v).map Prod.fst ↔ q = k ∨ q ∈ m.map Prod.fst := by
  induction m with
  | nil => simp [mset]
  | cons kv rest ih =>
    obtain ⟨k0, v0⟩ := kv
    by_cases hk : k0 = k
    · subst hk
      simp [mset]
    · simp [mset, hk, ih]
      tauto

theorem mset_keys_nodup {α : Type} (m : List (Nat × α)) (k : Nat) (v : α)
    (h : (m.map Prod.fst).Nodup) : ((mset m k v).map Prod.fst).Nodup := by
  induction m with
  | nil => simp [mset]
  | cons kv rest ih =>
    obtain ⟨k0, v0⟩ := kv
    simp only [List.map_cons, List.nodup_cons] at h
    by_cases hk : k0 = k
    · subst hk
      rw [mset, if_pos rfl]
      simp only [List.map_cons, List.nodup_cons]
      exact ⟨h.1, h.2⟩
    · simp only [mset, if_neg hk, List.map_cons, List.nodup_cons]
      refine ⟨?_, ih h.2⟩
      rw [mem_keys_mset]
      push_neg
      exact ⟨hk, h.1⟩

/-- Effect of registering a list of keep-alive callbacks (head of `cs`
first) on an nb-type nurse: nodes accumulate at the head of the nurse's
list, the rest of the bridge state is untouched except the nurse's
`clear_keep_alive` flag. -/
theorem registerAll_spec (env : Env) (nurse payload : Nat) (cs : List Nat)
    (w : World) (hnb : env.isNbInst nurse = true) (hn0 : nurse ≠ 0) :
    ∃ w2, registerAll env nurse payload w cs = .ok w2 ∧
      mfind w2.keep_alive nurse =
        (if cs = [] then mfind w.keep_alive nurse
         else some (cs.reverse.map (fun c => (⟨payload, some c⟩ : KANode)) ++
                    (mfind w.keep_alive nurse).getD [])) ∧
      w2.inst_c2p = w.inst_c2p ∧
      (∀ j, ∃ b, w2.insts j = { w.insts j with clear_keep_alive := b }) ∧
      (cs ≠ [] → (w2.insts nurse).clear_keep_alive = true) := by
  induction cs generalizing w with
  | nil =>
    refine ⟨w, rfl, by simp, rfl,
      fun j => ⟨(w.insts j).clear_keep_alive, rfl⟩, fun hne => absurd rfl hne⟩
  | cons c rest ih =>
    have hstep : keep_alive_cb env w nurse payload c = .ok
        ((ka_push w nurse ⟨payload, some c⟩).setInst nurse
          { w.insts nurse with clear_keep_alive := true }) := by
      simp [keep_alive_cb, hn0, hnb, ka_push, World.setInst]
    obtain ⟨w2, hreg, hfind, hc2p, hinsts, hcka⟩ := ih
      ((ka_push w nurse ⟨payload, some c⟩).setInst nurse
        { w.insts nurse with clear_keep_alive := true })
    have hrun : registerAll env nurse payload w (c :: rest) = .ok w2 := by
      rw [registerAll, hstep]
      exact hreg
    refine ⟨w2, hrun, ?_, ?_, ?_, fun _ => ?_⟩
    · rw [hfind]
      by_cases hrest : rest = []
      · subst hrest
        simp [World.setInst, ka_push, mfind_mset_self]
      · simp only [hrest, if_false, ite_false, World.setInst, ka_push]
        rw [mfind_mset_self]
        simp
    · rw [hc2p]
      simp [ka_push, World.setInst]
    · intro j
      obtain ⟨b, hb⟩ := hinsts j
      rw [hb]
      by_cases hj : j = nurse
      · subst hj
        exact ⟨b, by simp [World.setInst, ka_push]⟩
      · exact ⟨b, by simp [World.setInst, ka_push, hj]⟩
    · by_cases hrest : rest = []
      · subst hrest
        rw [registerAll] at hreg
        cases hreg
        simp [World.setInst, ka_push]
      · exact hcka hrest

theorem filter_cb_pre (p : Nat) (al : Bool) (c1 c2 c3 : Prop)
    [Decidable c1] [Decidable c2] [Decidable c3] :
    ((if c1 then [Event.clearDict] else []) ++
     (if c2 then [Event.destructorCall p] else []) ++
     (if c3 then [Event.opDelete p al] else [])).filter Event.isKaCallback = [] := by
  split_ifs <;> rfl

theorem count_pre_release (n : KANode) (p : Nat) (al : Bool) (c1 c2 c3 : Prop)
    [Decidable c1] [Decidable c2] [Decidable c3] :
    (((if c1 then [Event.clearDict] else []) ++
      (if c2 then [Event.destructorCall p] else []) ++
      (if c3 then [Event.opDelete p al] else [])).count (releaseEvent n)) = 0 := by
  rcases n with ⟨np, _ | nc⟩ <;> split_ifs <;>
    simp [releaseEvent, List.count_cons]

theorem count_tail_release (n : KANode) (p : Nat) :
    ([Event.c2pErase p, Event.freeSelf, Event.decrefType] : List Event).count
      (releaseEvent n) = 0 := by
  rcases n with ⟨np, _ | nc⟩ <;> simp [releaseEvent, List.count_cons]

theorem kaRemove_ne_release (n : KANode) (s : Nat) :
    Event.kaRemoveEntry s ≠ releaseEvent n := by
  rcases n with ⟨np, _ | nc⟩ <;> simp [releaseEvent]

/-- `inst_ptr` ignores the `clear_keep_alive` flag. -/
theorem inst_ptr_cka (x : Inst) (b : Bool) :
    inst_ptr { x with clear_keep_alive := b } = inst_ptr x := rfl

/-- C5: when a nurse wrapper with `clear_keep_alive` set is deallocated,
the nurse's keep-alive map entry is removed first, then every node of its
list is released exactly once in list order (callback invoked when
present, else patient decref) and freed, and no release happens outside
that segment; registering N distinct callbacks and destroying the nurse
invokes every callback exactly once, in reverse registration order. -/
theorem keep_alive_release_exactly_once :
    (∀ (env : Env) (w : World) (selfId : Nat) (L : List KANode)
       (m2 : List (Nat × Entry)),
       (w.keep_alive.map Prod.fst).Nodup →
       ¬((w.insts selfId).destruct = true ∧
         (env.tdOfTy (w.insts selfId).ty).is_destructible = false) →
       (w.insts selfId).clear_keep_alive = true →
       mfind w.keep_alive selfId = some L →
       c2p_remove w.inst_c2p (inst_ptr (w.insts selfId)) selfId = some m2 →
       ∃ w2 pre,
         inst_dealloc env w selfId = .ok (w2,
           pre ++ (Event.kaRemoveEntry selfId :: ka_release_events L) ++
           [Event.c2pErase (inst_ptr (w.insts selfId)), Event.freeSelf,
            Event.decrefType]) ∧
         mfind w2.keep_alive selfId = none ∧
         pre.filter Event.isKaCallback = [] ∧
         (L.Nodup → ∀ n ∈ L,
           (pre ++ (Event.kaRemoveEntry selfId :: ka_release_events L) ++
            [Event.c2pErase (inst_ptr (w.insts selfId)), Event.freeSelf,
             Event.decrefType]).count (releaseEvent n) = 1)) ∧
    (∀ (env : Env) (w0 : World) (nurse payload : Nat) (cs : List Nat)
       (m2 : List (Nat × Entry)),
       env.isNbInst nurse = true → nurse ≠ 0 → cs ≠ [] →
       mfind w0.keep_alive nurse = none →
       (w0.insts nurse).destruct = false →
       c2p_remove w0.inst_c2p (inst_ptr (w0.insts nurse)) nurse = some m2 →
       ∃ wN w2 tr, registerAll env nurse payload w0 cs = .ok wN ∧
         inst_dealloc env wN nurse = .ok (w2, tr) ∧
         tr.filter Event.isKaCallback =
           cs.reverse.map (fun c => Event.kaCallback c payload) ∧
         (cs.Nodup → ∀ c ∈ cs,
           tr.count (Event.kaCallback c payload) = 1)) := by
  constructor
  · intro env w selfId L m2 hkeys hd hka hL hrm
    refine ⟨_, _, inst_dealloc_ok_ka env w selfId L m2 hd hka hL hrm, ?_, ?_, ?_⟩
    · rw [ka_release_state_keep_alive]
      exact mfind_merase_self w.keep_alive selfId hkeys
    · exact filter_cb_pre _ _ _ _ _
    · intro hnd n hn
      rw [List.count_append, List.count_append, List.count_cons]
      rw [count_pre_release, count_tail_release, ka_release_events_count]
      rw [List.count_eq_one_of_mem hnd hn]
      simp [kaRemove_ne_release n selfId]
  · intro env w0 nurse payload cs m2 hnb hn0 hcs hfind0 hdes0 hrm0
    obtain ⟨wN, hreg, hfind, hc2p, hinsts, hcka⟩ :=
      registerAll_spec env nurse payload cs w0 hnb hn0
    obtain ⟨b, hb⟩ := hinsts nurse
    have hbtrue := hcka hcs
    rw [hb] at hbtrue
    simp only [] at hbtrue
    have hL : mfind wN.keep_alive nurse =
        some (cs.reverse.map (fun c => (⟨payload, some c⟩ : KANode))) := by
      rw [hfind, if_neg hcs, hfind0]
      simp
    have hd : ¬((wN.insts nurse).destruct = true ∧
        (env.tdOfTy (wN.insts nurse).ty).is_destructible = false) := by
      rw [hb]
      simp [hdes0]
    have hka : (wN.insts nurse).clear_keep_alive = true := hcka hcs
    have hptr : inst_ptr (wN.insts nurse) = inst_ptr (w0.insts nurse) := by
      rw [hb, inst_ptr_cka]
    have hrm : c2p_remove wN.inst_c2p (inst_ptr (wN.insts nurse)) nurse = some m2 := by
      rw [hc2p, hptr]
      exact hrm0
    refine ⟨wN, _, _, hreg, inst_dealloc_ok_ka env wN nurse _ m2 hd hka hL hrm, ?_, ?_⟩
    · rw [List.filter_append, List.filter_append, List.filter_cons]
      rw [filter_cb_pre]
      simp only [Event.isKaCallback, List.nil_append]
      rw [ka_release_events_filter_cb]
      simp [Event.isKaCallback]
    · intro hnd c hc
      rw [List.count_append, List.count_append, List.count_cons]
      have hrel : Event.kaCallback c payload =
          releaseEvent (⟨payload, some c⟩ : KANode) := rfl
      rw [hrel, count_pre_release, count_tail_release, ka_release_events_count]
      have hinj : Function.Injective (fun c => (⟨payload, some c⟩ : KANode)) := by
        intro a b hab
        simpa using hab
      have h1 : (cs.reverse.map (fun c => (⟨payload, some c⟩ : KANode))).count
          (⟨payload, some c⟩ : KANode) = cs.reverse.count c :=
        List.count_map_of_injective cs.reverse _ hinj c
      rw [h1, List.count_eq_one_of_mem (List.nodup_reverse.mpr hnd)
        (List.mem_reverse.mpr hc)]
      simp [kaRemove_ne_release (⟨payload, some c⟩ : KANode) nurse]

theorem keep_alive_release_exactly_once_witness :
    ((wDel.keep_alive.map Prod.fst).Nodup ∧
     ¬((wDel.insts 3).destruct = true ∧
       (envW.tdOfTy (wDel.insts 3).ty).is_destructible = false) ∧
     (wDel.insts 3).clear_keep_alive = true ∧
     mfind wDel.keep_alive 3 = some [⟨4, none⟩] ∧
     c2p_remove wDel.inst_c2p (inst_ptr (wDel.insts 3)) 3 = some []) ∧
    (∃ w2 pre,
       inst_dealloc envW wDel 3 = .ok (w2,
         pre ++ (Event.kaRemoveEntry 3 :: ka_release_events [⟨4, none⟩]) ++
         [Event.c2pErase (inst_ptr (wDel.insts 3)), Event.freeSelf,
          Event.decrefType]) ∧
       mfind w2.keep_alive 3 = none ∧
       pre.filter Event.isKaCallback = [] ∧
       (([⟨4, none⟩] : List KANode).Nodup → ∀ n ∈ ([⟨4, none⟩] : List KANode),
         (pre ++ (Event.kaRemoveEntry 3 :: ka_release_events [⟨4, none⟩]) ++
          [Event.c2pErase (inst_ptr (wDel.insts 3)), Event.freeSelf,
           Event.decrefType]).count (releaseEvent n) = 1)) ∧
    (envW.isNbInst 3 = true ∧ (3 : Nat) ≠ 0 ∧ ([11, 12] : List Nat) ≠ [] ∧
     mfind wCb.keep_alive 3 = none ∧ (wCb.insts 3).destruct = false ∧
     c2p_remove wCb.inst_c2p (inst_ptr (wCb.insts 3)) 3 = some []) ∧
    (∃ wN w2 tr, registerAll envW 3 9 wCb [11, 12] = .ok wN ∧
       inst_dealloc envW wN 3 = .ok (w2, tr) ∧
       tr.filter Event.isKaCallback =
         ([11, 12] : List Nat).reverse.map (fun c => Event.kaCallback c 9) ∧
       (([11, 12] : List Nat).Nodup → ∀ c ∈ ([11, 12] : List Nat),
         tr.count (Event.kaCallback c 9) = 1)) := by
  refine ⟨⟨by decide, by decide, rfl, rfl, by decide⟩, ?_,
          ⟨rfl, by decide, by decide, rfl, rfl, by decide⟩, ?_⟩
  · exact keep_alive_release_exactly_once.1 envW wDel 3 [⟨4, none⟩] []
      (by decide) (by decide) rfl rfl (by decide)
  · exact keep_alive_release_exactly_once.2 envW wCb 3 9 [11, 12] []
      rfl (by decide) (by decide) rfl rfl (by decide)

theorem implicit_exact_eq (s : Nat) (l : List Nat) :
    implicit_exact s l = (l.filter (fun v => v == s)).head? := by
  induction l with
  | nil => rfl
  | cons x xs ih =>
    by_cases hx : x = s
    · subst hx
      simp [implicit_exact, List.filter_cons]
    · simp [implicit_exact, hx, ih, List.filter_cons]

theorem implicit_sub_eq (env : Env) (tmap : List (Nat × TypeData)) (srcTy : Nat)
    (l : List Nat) :
    implicit_sub env tmap srcTy l = (l.filter (bmatch env tmap srcTy)).head? := by
  induction l with
  | nil => rfl
  | cons x xs ih =>
    cases hm : mfind tmap x with
    | none => simp [implicit_sub, hm, ih, List.filter_cons, bmatch]
    | some td2 =>
      by_cases hs : env.isSub srcTy td2.type_py = true
      · simp [implicit_sub, hm, hs, List.filter_cons, bmatch]
      · simp [implicit_sub, hm, hs, ih, List.filter_cons, bmatch]

theorem implicit_pred_enumFrom (src : Nat) (fs : List (Nat → Bool)) (k : Nat) :
    (((List.enumFrom k fs).filter (fun kf => kf.2 src)).head?).map Prod.fst =
      (implicit_pred src fs).map (fun i => i + k) := by
  induction fs generalizing k with
  | nil => rfl
  | cons f rest ih =>
    by_cases hf : f src = true
    · simp [List.enumFrom, List.filter_cons, hf, implicit_pred]
    · rw [List.enumFrom, List.filter_cons]
      simp only [hf, Bool.false_eq_true, if_false, ite_false]
      rw [ih (k + 1)]
      simp only [implicit_pred, hf, Bool.false_eq_true, if_false, ite_false]
      cases implicit_pred src rest with
      | none => rfl
      | some a => simp [Nat.add_assoc, Nat.add_comm 1 k]

theorem filter_beq_head (s : Nat) (l : List Nat) (h : s ∈ l) :
    (l.filter (fun v => v == s)).head? = some s := by
  induction l with
  | nil => simp at h
  | cons x xs ih =>
    by_cases hx : x = s
    · subst hx
      simp [List.filter_cons]
    · rcases List.mem_cons.mp h with h1 | h1
      · exact absurd h1.symm hx
      · simp [List.filter_cons, hx, ih h1]

/-- C4: the implicit-conversion resolver selects exactly the head of the
ordered candidate list — all exact native-type matches, then all
subtype-based native-type matches, then the accepting predicates, each in
declaration order; a source whose own type is declared always selects
that exact native entry; whenever any native-type candidate (exact or
subtype) matches, the selection is never a predicate candidate; and the
selected candidate is the one driving the construction of the result. -/
theorem implicit_conversion_ordering (env : Env) (w : World) (src : Nat)
    (cpp_type_src : Option Nat) (dst : TypeData) :
    nb_type_get_implicit_select env w src cpp_type_src dst =
      (conv_candidates env w src cpp_type_src dst).head? ∧
    (∀ s, cpp_type_src = some s → s ∈ dst.implicit →
      nb_type_get_implicit_select env w src cpp_type_src dst =
        some (.nativeExact s)) ∧
    (∀ s, cpp_type_src = some s →
      (s ∈ dst.implicit ∨
       ∃ v ∈ dst.implicit, bmatch env w.type_c2p (w.insts src).ty v = true) →
      ∀ k, nb_type_get_implicit_select env w src cpp_type_src dst ≠
        some (.pred k)) ∧
    ((nb_type_get_implicit_select env w src cpp_type_src dst).isSome →
      nb_type_get_implicit env w src cpp_type_src dst =
        env.construct dst.type_py src) := by
  refine ⟨?_, ?_, ?_, ?_⟩
  · have hpred : (((List.enumFrom 0 dst.implicit_py).filter
        (fun kf => kf.2 src)).head?).map Prod.fst = implicit_pred src dst.implicit_py := by
      simpa using implicit_pred_enumFrom src dst.implicit_py 0
    unfold nb_type_get_implicit_select conv_candidates
    cases cpp_type_src with
    | none =>
      simp only [List.nil_append, List.head?_map]
      rw [← hpred, Option.map_map]
      rfl
    | some s =>
      simp only []
      rw [implicit_exact_eq, implicit_sub_eq]
      cases hE : (dst.implicit.filter (fun v => v == s)).head? with
      | some v =>
        simp [hE, List.head?_append, List.head?_map]
      | none =>
        rw [List.head?_eq_none_iff] at hE
        cases hS : (dst.implicit.filter
            (bmatch env w.type_c2p (w.insts src).ty)).head? with
        | some v =>
          simp [hE, hS, List.head?_append, List.head?_map,
            ← List.head?_eq_none_iff.mpr hE]
        | none =>
          rw [List.head?_eq_none_iff] at hS
          simp only [hE, hS, List.map_nil, List.nil_append, List.head?_map]
          rw [← hpred, Option.map_map]
          rfl
  · intro s hcpp hmem
    subst hcpp
    unfold nb_type_get_implicit_select
    simp only []
    rw [implicit_exact_eq, filter_beq_head s dst.implicit hmem]
  · intro s hcpp hnat k
    subst hcpp
    unfold nb_type_get_implicit_select
    simp only []
    rw [implicit_exact_eq, implicit_sub_eq]
    cases hE : (dst.implicit.filter (fun v => v == s)).head? with
    | some v => simp
    | none =>
      cases hS : (dst.implicit.filter
          (bmatch env w.type_c2p (w.insts src).ty)).head? with
      | some v => simp
      | none =>
        exfalso
        rcases hnat with hmem | ⟨v, hv, hbv⟩
        · rw [filter_beq_head s dst.implicit hmem] at hE
          exact Option.noConfusion hE
        · rw [List.head?_eq_none_iff] at hS
          have : v ∈ dst.implicit.filter (bmatch env w.type_c2p (w.insts src).ty) :=
            List.mem_filter.mpr ⟨hv, hbv⟩
          rw [hS] at this
          simp at this
  · intro hsome
    unfold nb_type_get_implicit
    cases hsel : nb_type_get_implicit_select env w src cpp_type_src dst with
    | none => rw [hsel] at hsome; simp at hsome
    | some c => rfl

theorem implicit_conversion_ordering_witness :
    (42 : Nat) ∈ tdImp.implicit ∧
    nb_type_get_implicit_select envW wEmpty 5 (some 42) tdImp =
      (conv_candidates envW wEmpty 5 (some 42) tdImp).head? ∧
    nb_type_get_implicit_select envW wEmpty 5 (some 42) tdImp =
      some (.nativeExact 42) ∧
    (∀ k, nb_type_get_implicit_select envW wEmpty 5 (some 42) tdImp ≠
      some (.pred k)) ∧
    ((nb_type_get_implicit_select envW wEmpty 5 (some 42) tdImp).isSome →
      nb_type_get_implicit envW wEmpty 5 (some 42) tdImp =
        envW.construct tdImp.type_py 5) := by
  have h := implicit_conversion_ordering envW wEmpty 5 (some 42) tdImp
  exact ⟨by decide, h.1, h.2.1 42 rfl (by decide),
    h.2.2.1 42 rfl (Or.inl (by decide)), h.2.2.2⟩

theorem inst_new_header_ty (selfAddr : Nat) (t : TypeData) (v : Option Nat) :
    (inst_new_header selfAddr t v).ty = t.type_py := by
  cases v with
  | none => rfl
  | some x =>
    simp only [inst_new_header]
    split <;> rfl

/-- The identity-map scan loop returns the first instance matching the
requested type exactly or through Python subtyping, whenever the
requested type is registered and some instance in the list matches. -/
theorem put_loop_found (env : Env) (w : World) (cpp_type : Nat) (td : TypeData)
    (hty : mfind w.type_c2p cpp_type = some td) (l : List Nat)
    (hex : ∃ j ∈ l, (env.tdOfTy (w.insts j).ty).cpp = cpp_type ∨
           env.isSub (w.insts j).ty td.type_py = true) :
    ∃ i, i ∈ l ∧
      ((env.tdOfTy (w.insts i).ty).cpp = cpp_type ∨
       env.isSub (w.insts i).ty td.type_py = true) ∧
      put_loop env w cpp_type l = .found i := by
  induction l with
  | nil => simp at hex
  | cons x xs ih =>
    by_cases hx : (env.tdOfTy (w.insts x).ty).cpp = cpp_type
    · exact ⟨x, List.mem_cons_self x xs, Or.inl hx, by simp [put_loop, hx]⟩
    · by_cases hsub : env.isSub (w.insts x).ty td.type_py = true
      · exact ⟨x, List.mem_cons_self x xs, Or.inr hsub,
          by simp [put_loop, hx, hty, hsub]⟩
      · obtain ⟨j, hj, hcond⟩ := hex
        rcases List.mem_cons.mp hj with hjx | hjxs
        · subst hjx
          rcases hcond with hc | hc
          · exact absurd hc hx
          · exact absurd hc hsub
        · obtain ⟨i, hi, hci, hpl⟩ := ih ⟨j, hjxs, hcond⟩
          exact ⟨i, List.mem_cons_of_mem x hi, hci,
            by simp [put_loop, hx, hty, hsub, hpl]⟩

/-- Computation of `nb_type_put_common` for a fresh external value under
the `reference` policy: the new wrapper owns neither the destructor nor
the memory. -/
theorem put_common_fresh_ref (env : Env) (w : World) (value : Nat) (td : TypeData)
    (cs : Option Nat)
    (hintr : td.intrusive_ptr = false)
    (hsft : td.has_shared_from_this = false)
    (hmap : mfind w.inst_c2p value = none) :
    ∃ w2, nb_type_put_common env w value td .reference cs =
        .ok (some w.nextId, true, w2, []) ∧
      w2.insts w.nextId =
        { inst_new_header w.nextAddr td (some value) with
          destruct := false, cpp_delete := false, ready := true } ∧
      w2.inst_c2p = mset w.inst_c2p value (.direct w.nextId) ∧
      w2.type_c2p = w.type_c2p ∧
      w2.nextId = w.nextId + 1 := by
  have hreg : c2p_register w.inst_c2p
      (inst_ptr (inst_new_header w.nextAddr td (some value))) w.nextId =
      .ok (mset w.inst_c2p value (.direct w.nextId)) := by
    rw [inst_ptr_ext]
    simp [c2p_register, hmap]
  simp [nb_type_put_common, move_step, copy_step, finalize_step, hintr, hsft,
    inst_new_impl, hreg, Except.map, Except.bind]
  simp [World.setInst, World.setRef]

/-- C1: when the requested policy is not `copy` and the identity map holds
a wrapper at the target address whose registered type is the requested one
(or whose Python type is a subtype of the registered Python type),
`nb_type_put` returns such an existing wrapper with its reference count
incremented and creates nothing — the map, the instance table and the id
counter are unchanged; in particular two consecutive
`put(T, p, reference)` calls return the same wrapper object. -/
theorem nb_type_put_identity_preservation :
    (∀ (env : Env) (w : World) (cpp_type value : Nat) (rvp : RvPolicy)
       (cs : Option Nat) (e : Entry) (td : TypeData),
       rvp ≠ .copy → value ≠ 0 →
       mfind w.inst_c2p value = some e →
       mfind w.type_c2p cpp_type = some td →
       (∃ j ∈ e.toList, (env.tdOfTy (w.insts j).ty).cpp = cpp_type ∨
          env.isSub (w.insts j).ty td.type_py = true) →
       ∃ i, i ∈ e.toList ∧
         ((env.tdOfTy (w.insts i).ty).cpp = cpp_type ∨
          env.isSub (w.insts i).ty td.type_py = true) ∧
         nb_type_put env w cpp_type value rvp cs = .ok (some i, false, incref w i, []) ∧
         (incref w i).inst_c2p = w.inst_c2p ∧
         (incref w i).insts = w.insts ∧
         (incref w i).nextId = w.nextId ∧
         (incref w i).refcnt i = w.refcnt i + 1) ∧
    (∀ (env : Env) (w : World) (cpp_type value : Nat) (cs : Option Nat)
       (td : TypeData),
       mfind w.type_c2p cpp_type = some td →
       (env.tdOfTy td.type_py).cpp = cpp_type →
       td.intrusive_ptr = false → td.has_shared_from_this = false →
       value ≠ 0 → mfind w.inst_c2p value = none →
       ∃ i w1, nb_type_put env w cpp_type value .reference cs =
           .ok (some i, true, w1, []) ∧
         nb_type_put env w1 cpp_type value .reference cs =
           .ok (some i, false, incref w1 i, [])) := by
  constructor
  · intro env w cpp_type value rvp cs e td hrvp hv hmap hty hex
    obtain ⟨i, hi, hci, hpl⟩ := put_loop_found env w cpp_type td hty e.toList hex
    refine ⟨i, hi, hci, ?_, rfl, rfl, rfl, ?_⟩
    · simp [nb_type_put, hv, hrvp, hmap, hpl]
    · simp [incref, World.setRef]
  · intro env w cpp_type value cs td hty hcoh hintr hsft hv hmap
    obtain ⟨w1, hcomm, hinst, hc2p, htys, _⟩ :=
      put_common_fresh_ref env w value td cs hintr hsft hmap
    have hput1 : nb_type_put env w cpp_type value .reference cs =
        .ok (some w.nextId, true, w1, []) := by
      simp [nb_type_put, hv, hmap, hty, hcomm]
    have hfind1 : mfind w1.inst_c2p value = some (.direct w.nextId) := by
      rw [hc2p]
      exact mfind_mset_self _ _ _
    have hloop : put_loop env w1 cpp_type [w.nextId] = .found w.nextId := by
      have hty1 : (w1.insts w.nextId).ty = td.type_py := by
        rw [hinst]
        exact inst_new_header_ty _ _ _
      simp [put_loop, hty1, hcoh]
    refine ⟨w.nextId, w1, hput1, ?_⟩
    simp [nb_type_put, hv, hfind1, Entry.toList, hloop]

theorem nb_type_put_identity_preservation_witness :
    (RvPolicy.reference ≠ RvPolicy.copy ∧ (1000 : Nat) ≠ 0 ∧
     mfind wCb.inst_c2p 1000 = some (.direct 3) ∧
     mfind wCb.type_c2p 42 = some tdW ∧
     (∃ j ∈ (Entry.direct 3).toList, (envW.tdOfTy (wCb.insts j).ty).cpp = 42 ∨
        envW.isSub (wCb.insts j).ty tdW.type_py = true) ∧
     ∃ i, i ∈ (Entry.direct 3).toList ∧
       ((envW.tdOfTy (wCb.insts i).ty).cpp = 42 ∨
        envW.isSub (wCb.insts i).ty tdW.type_py = true) ∧
       nb_type_put envW wCb 42 1000 .reference none =
         .ok (some i, false, incref wCb i, []) ∧
       (incref wCb i).inst_c2p = wCb.inst_c2p ∧
       (incref wCb i).insts = wCb.insts ∧
       (incref wCb i).nextId = wCb.nextId ∧
       (incref wCb i).refcnt i = wCb.refcnt i + 1) ∧
    (mfind wEmpty.type_c2p 42 = some tdW ∧
     (envW.tdOfTy tdW.type_py).cpp = 42 ∧
     (500 : Nat) ≠ 0 ∧ mfind wEmpty.inst_c2p 500 = none ∧
     ∃ i w1, nb_type_put envW wEmpty 42 500 .reference none =
         .ok (some i, true, w1, []) ∧
       nb_type_put envW w1 42 500 .reference none =
         .ok (some i, false, incref w1 i, [])) := by
  constructor
  · refine ⟨by decide, by decide, rfl, rfl, ⟨3, by decide, Or.inl rfl⟩, ?_⟩
    exact nb_type_put_identity_preservation.1 envW wCb 42 1000 .reference none
      (.direct 3) tdW (by decide) (by decide) rfl rfl ⟨3, by decide, Or.inl rfl⟩
  · refine ⟨rfl, rfl, by decide, rfl, ?_⟩
    exact nb_type_put_identity_preservation.2 envW wEmpty 42 500 none tdW
      rfl rfl rfl rfl (by decide) rfl

end Nanobind
